import Mathlib

/-!
# Verification of the pastebin core (paste creation/retrieval pipeline)

Shallow embedding of the repository's core service code:

* `lib/schemas/paste.schema.ts` — Zod input validation (`createPasteSchema`),
* `lib/validators/paste.validator.ts` — expiration rules, size checks,
  expiration calculation (file `unnamed/part_006` in the snapshot),
* `lib/services/paste.service.ts` — `PasteService.createPaste` / `getPaste`
  (appended to `lib/storage/paste-history.ts` in the snapshot),
* `lib/rate-limit.ts` — fixed-window rate limiter (`unnamed/part_005`),
* `db/...increment_view_count...sql` — the atomic view-count update
  (`unnamed/part_010`),
* `app/api/pastes/route.ts` — HTTP status mapping of service errors,
* `lib/hashids.ts` plus the `hashids` npm dependency it wraps —
  slug encoding/decoding.

Timestamps are modelled as natural numbers of milliseconds (JavaScript
`Date.now()`).  Redis and Postgres are modelled as explicit state threaded
through the functions; the fire-and-forget cache writes and view-count
increments are modelled on their success path, with failure injected through
explicit boolean oracles where a claim is about failure behaviour.
-/

/-! ## JavaScript string primitives

JS `string.length` counts UTF-16 code units; `TextEncoder().encode(s).length`
counts UTF-8 bytes.  Lean `Char` is a Unicode scalar value, so both sizes are
recovered per character.
-/

/-- UTF-16 code units taken by one scalar value (JS string length unit). -/
def utf16Size (c : Char) : Nat :=
  if c.toNat < 0x10000 then 1 else 2

/-- UTF-8 bytes taken by one scalar value. -/
def utf8Size' (c : Char) : Nat :=
  if c.toNat < 0x80 then 1
  else if c.toNat < 0x800 then 2
  else if c.toNat < 0x10000 then 3
  else 4

/-- JS `s.length` (UTF-16 code units). -/
def jsLength (s : String) : Nat :=
  (s.data.map utf16Size).sum

/-- JS `new TextEncoder().encode(s).length` (UTF-8 bytes). -/
def utf8Length (s : String) : Nat :=
  (s.data.map utf8Size').sum

/-- The WhiteSpace and LineTerminator code points recognised by JS
`String.prototype.trim`. -/
def jsWhitespaceChars : List Char :=
  [' ', '\t', '\n', '\r', '\x0b', '\x0c',
   ' ', ' ', ' ', ' ', ' ', ' ', ' ',
   ' ', ' ', ' ', ' ', ' ', ' ',
   ' ', ' ', ' ', ' ', '　', '﻿']

/-- JS `s.trim()`. -/
def jsTrim (s : String) : String :=
  ⟨(s.data.dropWhile (· ∈ jsWhitespaceChars)).reverse.dropWhile
      (· ∈ jsWhitespaceChars) |>.reverse⟩

/-- Decidable substring test, modelling JS `message.includes(pat)`. -/
def hasSubstr (s pat : List Char) : Bool :=
  pat.isPrefixOf s ||
    match s with
    | [] => false
    | _ :: rest => hasSubstr rest pat

/-- String form of `hasSubstr`. -/
def strIncludes (s pat : String) : Bool :=
  hasSubstr s.data pat.data

theorem utf16Size_le_utf8Size (c : Char) : utf16Size c ≤ utf8Size' c := by
  unfold utf16Size utf8Size'
  split_ifs <;> omega

theorem jsLength_le_utf8Length (s : String) : jsLength s ≤ utf8Length s := by
  unfold jsLength utf8Length
  induction s.data with
  | nil => simp
  | cons c cs ih =>
      simp only [List.map_cons, List.sum_cons]
      exact Nat.add_le_add (utf16Size_le_utf8Size c) ih

/-! ## Data model

`PasteRow` is the `pastes` table row (`types/database.types.ts` columns),
`Paste` the domain model (`types/paste.types.ts`), `CachedPaste` the Redis
projection (`CachedPaste` in `paste.service.ts`).  The opaque JSONB
`metadata` is modelled as `Option String`.
-/

structure PasteRow where
  id : Nat
  slug : String
  content : String
  language : String
  user_id : Option String
  ip_hash : String
  created_at : Nat
  expires_at : Option Nat
  view_count : Nat
  last_viewed_at : Option Nat
  metadata : Option String
deriving DecidableEq, Repr

structure Paste where
  id : Nat
  slug : String
  content : String
  language : String
  userId : Option String
  createdAt : Nat
  expiresAt : Option Nat
  viewCount : Nat
  lastViewedAt : Option Nat
  metadata : Option String
deriving DecidableEq, Repr

structure CachedPaste where
  content : String
  language : String
  created_at : Nat
  expires_at : Option Nat
deriving DecidableEq, Repr

/-- Row-to-domain transform of the repository layer
(`lib/db/repositories/paste.repository.ts`, shown in
`src/docs/ARCHITECTURE.md`): field renames plus date parsing. -/
def rowToDomain (r : PasteRow) : Paste :=
  { id := r.id, slug := r.slug, content := r.content, language := r.language,
    userId := r.user_id, createdAt := r.created_at, expiresAt := r.expires_at,
    viewCount := r.view_count, lastViewedAt := r.last_viewed_at,
    metadata := r.metadata }

/-- One Redis key/value pair of the paste cache, with the absolute time at
which the entry's TTL expires. -/
structure CacheEntry where
  key : String
  value : CachedPaste
  expiresAt : Nat
deriving DecidableEq, Repr

/-- Combined backend state seen by `PasteService`: the Redis `paste_counter`,
the Postgres `pastes` table, and the Redis paste cache. -/
structure ServiceState where
  counter : Nat
  store : List PasteRow
  cache : List CacheEntry
deriving DecidableEq, Repr

/-- `CACHE_TTL = 3600` seconds (`paste.service.ts`). -/
def CACHE_TTL_MS : Nat := 3600 * 1000

/-- Redis `GET paste:(slug)` followed by `JSON.parse`
(`PasteService.getCachedPaste`): an entry answers only while its TTL has not
elapsed. -/
def getCachedPaste (s : ServiceState) (slug : String) (now : Nat) :
    Option CachedPaste :=
  (s.cache.find? (fun e => e.key == "paste:" ++ slug && now < e.expiresAt)).map
    (·.value)

/-- Redis `SET paste:(slug) data EX 3600` (`PasteService.cachePaste`,
success path; the catch branch swallows failures and is modelled by the
caller's `cacheOk` oracle). -/
def cacheWrite (s : ServiceState) (slug : String) (v : CachedPaste)
    (now : Nat) : ServiceState :=
  { s with cache :=
      { key := "paste:" ++ slug, value := v, expiresAt := now + CACHE_TTL_MS }
        :: s.cache.filter (fun e => e.key != "paste:" ++ slug) }

/-- The SQL function `increment_view_count` (migration `unnamed/part_010`):
`UPDATE pastes SET view_count = view_count + 1, last_viewed_at = now()
WHERE id = paste_id`. -/
def bumpView (store : List PasteRow) (i now : Nat) : List PasteRow :=
  store.map (fun r =>
    if r.id = i then
      { r with view_count := r.view_count + 1, last_viewed_at := some now }
    else r)

/-- `PasteDAO.findBySlug`: `SELECT * FROM pastes WHERE slug = ?` (the slug
column is unique; `.single()` yields the one matching row or none).  No
expiry filter appears in the query. -/
def findBySlug (store : List PasteRow) (slug : String) : Option PasteRow :=
  store.find? (fun r => r.slug == slug)

/-- `PasteService.getPaste` (`paste.service.ts`): cache-aside read.
1. cache hit returns the cached projection through `cachedPasteToDomain`;
2. miss queries the store; absence returns `null`;
3. a found row is re-cached and its view count incremented (the source fires
   the increment without awaiting it; the model applies it, matching the
   state once the detached update lands).
No `expires_at` comparison occurs anywhere in this function. -/
def cachedPasteToDomain (slug : String) (c : CachedPaste) : Paste :=
  { id := 0, slug := slug, content := c.content, language := c.language,
    userId := none, createdAt := c.created_at, expiresAt := c.expires_at,
    viewCount := 0, lastViewedAt := none, metadata := none }

def getPaste (s : ServiceState) (slug : String) (now : Nat) :
    Option Paste × ServiceState :=
  match getCachedPaste s slug now with
  | some c => (some (cachedPasteToDomain slug c), s)
  | none =>
    match findBySlug s.store slug with
    | none => (none, s)
    | some row =>
      let s1 := cacheWrite s slug
        { content := row.content, language := row.language,
          created_at := row.created_at, expires_at := row.expires_at } now
      let s2 := { s1 with store := bumpView s1.store row.id now }
      (some (rowToDomain row), s2)

/-! ## Input validation (`createPasteSchema`, Zod)

Zod's `.min`/`.max` on strings compare `value.length`, i.e. UTF-16 code
units; the `.transform(trim)` runs after the checks.  The model reports one
issue where Zod aggregates several; acceptance/rejection is unchanged.
Zod's `.uuid()` format check is modelled as an abstract decidable predicate
(8-4-4-4-12 hex groups).
-/

def CONTENT_SIZE_LIMIT : Nat := 100 * 1024

def SUPPORTED_LANGUAGES : List String :=
  ["text", "javascript", "typescript", "python", "java", "go", "rust",
   "cpp", "c", "csharp", "php", "ruby", "swift", "kotlin", "sql", "html",
   "css", "json", "yaml", "markdown", "bash", "shell"]

def EXPIRATION_OPTIONS : List String := ["1h", "1d", "7d", "never"]

def isHexDigit (c : Char) : Bool :=
  ('0' ≤ c && c ≤ '9') || ('a' ≤ c && c ≤ 'f') || ('A' ≤ c && c ≤ 'F')

def isUuid (s : String) : Bool :=
  match s.data.splitOn '-' with
  | [a, b, c, d, e] =>
      a.length == 8 && b.length == 4 && c.length == 4 && d.length == 4 &&
      e.length == 12 && (a ++ b ++ c ++ d ++ e).all isHexDigit
  | _ => false

/-- A raw JSON body for `POST /api/pastes`: optional fields are `Option`,
and `userId`'s inner `Option` distinguishes JSON `null` from a string. -/
structure RawInput where
  content : String
  language : Option String
  expiresIn : Option String
  userId : Option (Option String)
deriving DecidableEq, Repr

structure ValidatedInput where
  content : String
  language : String
  expiresIn : String
  userId : Option String
deriving DecidableEq, Repr

inductive ZodIssue where
  | emptyContent
  | contentTooLong
  | invalidLanguage
  | invalidExpiration
  | invalidUserId
deriving DecidableEq, Repr

/-- `createPasteSchema.parse` (`paste.schema.ts`): content non-empty and at
most `CONTENT_SIZE_LIMIT` UTF-16 units, then trimmed; `language` defaults to
`text`, `expiresIn` to `7d`; a present non-null `userId` must be a UUID. -/
def validateCreatePasteInput (i : RawInput) : Except ZodIssue ValidatedInput :=
  if jsLength i.content < 1 then .error .emptyContent
  else if CONTENT_SIZE_LIMIT < jsLength i.content then .error .contentTooLong
  else
    match i.language with
    | some l =>
      if l ∈ SUPPORTED_LANGUAGES then
        validateRest i l
      else .error .invalidLanguage
    | none => validateRest i "text"
where
  validateRest (i : RawInput) (lang : String) : Except ZodIssue ValidatedInput :=
    match i.expiresIn with
    | some e =>
      if e ∈ EXPIRATION_OPTIONS then validateUser i lang e
      else .error .invalidExpiration
    | none => validateUser i lang "7d"
  validateUser (i : RawInput) (lang exp : String) :
      Except ZodIssue ValidatedInput :=
    match i.userId with
    | some (some u) =>
      if isUuid u then
        .ok { content := jsTrim i.content, language := lang,
              expiresIn := exp, userId := some u }
      else .error .invalidUserId
    | _ =>
      .ok { content := jsTrim i.content, language := lang,
            expiresIn := exp, userId := none }

/-- `shouldUseObjectStorage` (`paste.validator.ts`): UTF-8 byte length of the
(validated, trimmed) content strictly above the limit. -/
def shouldUseObjectStorage (content : String) : Bool :=
  CONTENT_SIZE_LIMIT < utf8Length content

/-- `calculateExpiration` (`paste.validator.ts`): `never` maps to null, the
other selectors to now plus the duration (the source adds via calendar
`Date` setters; modelled as UTC millisecond arithmetic). -/
def calculateExpiration (duration : String) (now : Nat) : Option Nat :=
  if duration == "never" then none
  else if duration == "1h" then some (now + 3600 * 1000)
  else if duration == "1d" then some (now + 86400 * 1000)
  else some (now + 7 * 86400 * 1000)

inductive CreateError where
  | zodError (issue : ZodIssue)
  | policyViolation
  | contentTooLarge
  | insertFailure
deriving DecidableEq, Repr

deriving instance DecidableEq for Except

/-- The `Error.message` texts thrown by the service layer
(`validateExpirationRules`, the object-storage TODO branch, and
`PasteDAO.insert`'s wrapper). -/
def errMessage : CreateError → String
  | .zodError _ => "Validation failed"
  | .policyViolation => "Anonymous users must set an expiration time"
  | .contentTooLarge => "Content too large. Object storage not yet implemented."
  | .insertFailure => "Failed to insert paste: database error"

/-- The catch-branch status mapping of `POST /api/pastes` (`route.ts`):
`ZodError` instances map to 400, other errors by substring of their
message. -/
def routeStatus : CreateError → Nat
  | .zodError _ => 400
  | e =>
    let m := errMessage e
    if strIncludes m "too large" then 413
    else if strIncludes m "Anonymous users" then 403
    else if strIncludes m "required" || strIncludes m "Invalid" then 400
    else 500

/-- HTTP status of a create outcome (201 on success, else the catch
mapping). -/
def postStatus (res : Except CreateError Paste) : Nat :=
  match res with
  | .ok _ => 201
  | .error e => routeStatus e

/-! ## `PasteService.createPaste`

The pipeline of `paste.service.ts`: Zod validation, the anonymous-expiration
business rule, the object-storage size check, Redis `INCR paste_counter`,
slug generation, expiration calculation, insert, best-effort cache write.
`insertOk` injects a Store failure, `cacheOk` a cache-write failure (the
source swallows the latter inside `cachePaste`'s catch).  `slugOf` abstracts
`generateSlug` (instantiated with the hashids encoder below). -/
def createPaste (slugOf : Nat → String) (s : ServiceState) (input : RawInput)
    (ipHash : String) (now : Nat) (insertOk cacheOk : Bool) :
    Except CreateError Paste × ServiceState :=
  match validateCreatePasteInput input with
  | .error z => (.error (.zodError z), s)
  | .ok v =>
    if v.userId = none ∧ v.expiresIn = "never" then
      (.error .policyViolation, s)
    else if shouldUseObjectStorage v.content then
      (.error .contentTooLarge, s)
    else
      let counter := s.counter + 1
      let slug := slugOf counter
      let s0 := { s with counter := counter }
      if insertOk then
        let row : PasteRow :=
          { id := s0.store.length + 1, slug := slug, content := v.content,
            language := v.language, user_id := v.userId, ip_hash := ipHash,
            created_at := now, expires_at := calculateExpiration v.expiresIn now,
            view_count := 0, last_viewed_at := none, metadata := none }
        let s1 := { s0 with store := s0.store ++ [row] }
        let s2 :=
          if cacheOk then
            cacheWrite s1 slug
              { content := v.content, language := row.language,
                created_at := row.created_at, expires_at := row.expires_at } now
          else s1
        (.ok (rowToDomain row), s2)
      else
        (.error .insertFailure, s0)

/-! ## Rate limiter (`lib/rate-limit.ts`, `unnamed/part_005`)

Redis `INCR` creates an absent (or TTL-expired) key with value 1 and no TTL;
`EXPIRE key window` then stamps the window end.  `redisTtl` returns the
remaining whole seconds (0 stands for the source's -1 on a key without
expiry, unreachable in this flow).  `backendOk = false` models the catch
branch taken when Redis is unreachable. -/

structure RateLimitResult where
  success : Bool
  limit : Nat
  remaining : Nat
  reset : Nat
deriving DecidableEq, Repr

structure RLEntry where
  key : String
  count : Nat
  windowEndsAt : Option Nat
deriving DecidableEq, Repr

structure RLState where
  entries : List RLEntry
deriving DecidableEq, Repr

def rlLive (e : RLEntry) (now : Nat) : Bool :=
  match e.windowEndsAt with
  | none => true
  | some t => now < t

def rlFind (st : RLState) (key : String) (now : Nat) : Option RLEntry :=
  st.entries.find? (fun e => e.key == key && rlLive e now)

def redisIncr (st : RLState) (key : String) (now : Nat) : Nat × RLState :=
  match rlFind st key now with
  | some e =>
    (e.count + 1,
     ⟨{ e with count := e.count + 1 } ::
        st.entries.filter (fun x => x.key != key)⟩)
  | none =>
    (1, ⟨{ key := key, count := 1, windowEndsAt := none } ::
          st.entries.filter (fun x => x.key != key)⟩)

def redisExpire (st : RLState) (key : String) (t : Nat) : RLState :=
  ⟨st.entries.map (fun e =>
      if e.key == key then { e with windowEndsAt := some t } else e)⟩

def redisTtl (st : RLState) (key : String) (now : Nat) : Nat :=
  match rlFind st key now with
  | some e =>
    match e.windowEndsAt with
    | some t => (t - now) / 1000
    | none => 0
  | none => 0

/-- `rateLimit(ip, limit, window)` (`unnamed/part_005`): fixed-window counter
keyed by the hashed IP.  `success = current <= limit`,
`remaining = max(0, limit - current)` (truncated subtraction), the first
request of a window sets its expiry, and a backend failure fails open. -/
def rateLimit (st : RLState) (ipHash : String) (limit window now : Nat)
    (backendOk : Bool) : RateLimitResult × RLState :=
  let key := "rate_limit:" ++ ipHash
  if backendOk then
    let (current, st1) := redisIncr st key now
    let st2 :=
      if current = 1 then redisExpire st1 key (now + window * 1000) else st1
    let ttl := redisTtl st2 key now
    ({ success := current ≤ limit, limit := limit,
       remaining := limit - current, reset := now + ttl * 1000 }, st2)
  else
    ({ success := true, limit := limit, remaining := limit,
       reset := now + window * 1000 }, st)

/-! ## Concrete fixtures used by the closed theorems -/

/-- A paste row whose `expires_at` (millisecond 1000) is already past at read
time 2000, still holding a live cache entry. -/
def c1Row : PasteRow :=
  { id := 1, slug := "abc123", content := "hello", language := "text",
    user_id := none, ip_hash := "iphash", created_at := 0,
    expires_at := some 1000, view_count := 7, last_viewed_at := none,
    metadata := none }

def c1State : ServiceState :=
  { counter := 1, store := [c1Row],
    cache := [{ key := "paste:abc123",
                value := { content := "hello", language := "text",
                           created_at := 0, expires_at := some 1000 },
                expiresAt := 3600000 }] }

def c1StateNoCache : ServiceState := { c1State with cache := [] }

/-- Store row with `view_count = 0` alongside a live cache entry for the same
slug. -/
def c2Row : PasteRow :=
  { id := 1, slug := "ab", content := "x", language := "text",
    user_id := none, ip_hash := "iphash", created_at := 0,
    expires_at := some 999999999, view_count := 0, last_viewed_at := none,
    metadata := none }

def c2State : ServiceState :=
  { counter := 1, store := [c2Row],
    cache := [{ key := "paste:ab",
                value := { content := "x", language := "text",
                           created_at := 0, expires_at := some 999999999 },
                expiresAt := 3600000 }] }

/-- Anonymous create request with empty content and `expiresIn = never`. -/
def c5Input : RawInput :=
  { content := "", language := none, expiresIn := some "never", userId := none }

/-- Anonymous create request with valid content and `expiresIn = never`. -/
def c5ValidInput : RawInput :=
  { content := "hi", language := none, expiresIn := some "never",
    userId := none }

/-- A well-formed anonymous create request. -/
def okInput : RawInput :=
  { content := "hi", language := none, expiresIn := none, userId := none }

def emptyState : ServiceState := { counter := 0, store := [], cache := [] }

def constSlug : Nat → String := fun _ => "s"

/-- Store row with positive `view_count` whose slug also has a live cache
entry carrying different content metadata. -/
def c10Row : PasteRow :=
  { id := 4, slug := "zz", content := "stored", language := "python",
    user_id := some "11111111-2222-3333-4444-555555555555",
    ip_hash := "iphash", created_at := 10, expires_at := none,
    view_count := 42, last_viewed_at := some 20, metadata := some "m" }

def c10State : ServiceState :=
  { counter := 9, store := [c10Row],
    cache := [{ key := "paste:zz",
                value := { content := "cached", language := "go",
                           created_at := 3, expires_at := none },
                expiresAt := 7000 }] }

/-- C2's cache-miss configuration: the row of `c2State` with no cache
entry. -/
def c2MissState : ServiceState := { counter := 1, store := [c2Row], cache := [] }

/-! ## Hashids slug encoding (`lib/hashids.ts` and the `hashids` npm package)

The wrapper `lib/hashids.ts` instantiates `new Hashids(salt, 6, base62)`
with the salt from the environment.  The algorithm below is the npm
package (v2): the constructor derives `seps`, `guards` and the working
alphabet from the salt; `encode` maps a number list to a string over the
alphabet, padding with guards and shuffled alphabet halves up to the
minimum length; `decode` splits on guards and seps, reads each group back
and re-encodes the result to validate.  The source mutates arrays in
place; the embedding threads them explicitly.  JS number arithmetic is
modelled as exact `Nat` arithmetic (the service only encodes the Redis
counter, far below 2^53).
-/

namespace Hashids

/-- The 62-character alphabet passed by `lib/hashids.ts`. -/
def ALPHABET62 : List Char :=
  "abcdefghijklmnopqrstuvwxyzABCDEFGHIJKLMNOPQRSTUVWXYZ0123456789".data

/-- The default separator characters of the hashids algorithm. -/
def SEPCHARS : List Char := "cfhistuCFHISTU".data

/-- Swap two positions of a list (the in-place swap in `shuffle`). -/
def swapAt' (l : List Char) (i j : Nat) : List Char :=
  match l.get? i, l.get? j with
  | some a, some b => (l.set j a).set i b
  | _, _ => l

/-- One pass of the `shuffle` loop: the source iterates `i` from
`length - 1` down to `1`; `t` is the raw step counter whose value modulo
the salt length is the source's `v`, and `p` the running sum of salt code
points. -/
def shuffleGo (salt : List Char) : Nat → Nat → Nat → List Char → List Char
  | 0, _, _, l => l
  | Nat.succ i, t, p, l =>
      let v := t % salt.length
      let integer := (salt.getD v 'a').toNat
      let p' := p + integer
      let j := (integer + v + p') % (i + 1)
      shuffleGo salt i (t + 1) p' (swapAt' l j (i + 1))

/-- `shuffle(alphabet, salt)` of the hashids package: a salt-driven
sequence of swaps; the identity when the salt is empty. -/
def shuffle (l : List Char) (salt : List Char) : List Char :=
  if salt.length = 0 then l else shuffleGo salt (l.length - 1) 0 0 l

/-- `toAlphabet(number, alphabet)`: big-endian digits in the given
alphabet.  The source's do-while diverges when the alphabet has at most
one character; that case is unreachable here (the working alphabet has 44
characters) and is modelled as a single digit. -/
def toAlphabet (alph : List Char) (n : Nat) : List Char :=
  if _h1 : alph.length ≤ 1 then [alph.getD (n % alph.length) 'a']
  else if _h2 : n < alph.length then [alph.getD n 'a']
  else toAlphabet alph (n / alph.length) ++ [alph.getD (n % alph.length) 'a']
termination_by n
decreasing_by
  simp_wf
  exact Nat.div_lt_self (by omega) (by omega)

/-- JS `array.indexOf` restricted to present elements (`fromAlphabet`
below returns `none` where the source throws). -/
def idxIn (c : Char) : List Char → Nat
  | [] => 0
  | a :: l => if a = c then 0 else idxIn c l + 1

/-- `fromAlphabet(chars, alphabet)`: read base-`alphabet.length` digits
back into a number; `none` models the exception the source throws on a
character outside the alphabet. -/
def fromAlphabet (alph : List Char) (ds : List Char) : Option Nat :=
  ds.foldl (fun acc c =>
    match acc with
    | none => none
    | some v =>
        if c ∈ alph then some (v * alph.length + idxIn c alph) else none)
    (some 0)

/-- Split on a set of delimiter characters, modelling JS
`str.split(charClassRegExp)` (empty segments are kept). -/
def splitOnChars (ds : List Char) : List Char → List (List Char)
  | [] => [[]]
  | c :: rest =>
      if c ∈ ds then [] :: splitOnChars ds rest
      else
        match splitOnChars ds rest with
        | [] => [[c]]
        | p :: ps => (c :: p) :: ps

structure Ctx where
  salt : List Char
  minLength : Nat
  alphabet : List Char
  seps : List Char
  guards : List Char
deriving Repr

/-- The `Hashids` constructor with the wrapper's arguments: remove the
separator characters from the (deduplicated) alphabet, shuffle separators
and alphabet with the salt, rebalance separators when the ratio exceeds
3.5, and carve the guards off the front.  The float comparisons
`alphabet.length / seps.length > 3.5` and `Math.ceil(x / 3.5)` are
expressed exactly over integers. -/
def makeCtx (salt : List Char) : Ctx :=
  let uniq := ALPHABET62.eraseDups
  let alph0 := uniq.filter (fun c => ¬ c ∈ SEPCHARS)
  let seps0 := SEPCHARS.filter (fun c => c ∈ uniq)
  let seps1 := shuffle seps0 salt
  let as :=
    if seps1.length = 0 ∨ 2 * alph0.length > 7 * seps1.length then
      let sepsLength := (2 * alph0.length + 6) / 7
      if sepsLength > seps1.length then
        let diff := sepsLength - seps1.length
        (alph0.drop diff, seps1 ++ alph0.take diff)
      else (alph0, seps1)
    else (alph0, seps1)
  let alph2 := shuffle as.1 salt
  let guardCount := (alph2.length + 11) / 12
  if alph2.length < 3 then
    { salt := salt, minLength := 6, alphabet := alph2,
      seps := as.2.drop guardCount, guards := as.2.take guardCount }
  else
    { salt := salt, minLength := 6, alphabet := alph2.drop guardCount,
      seps := as.2, guards := alph2.take guardCount }

/-- `numbers.reduce((last, n, i) => last + n % (i + 100), 0)`. -/
def numbersHash (numbers : List Nat) : Nat :=
  numbers.enum.foldl (fun acc p => acc + p.2 % (p.1 + 100)) 0

/-- The body of `_encode`'s `numbers.forEach`: shuffle the alphabet with
the lottery/salt/alphabet buffer, append the digits, and append a
separator between numbers. -/
def encodeStep (ctx : Ctx) (lottery : Char) (count : Nat)
    (st : List Char × List Char) (p : Nat × Nat) : List Char × List Char :=
  let buffer := lottery :: (ctx.salt ++ st.2)
  let alph' := shuffle st.2 buffer
  let last := toAlphabet alph' p.2
  let ret' := st.1 ++ last
  if p.1 + 1 < count then
    let charCode := (last.headD 'a').toNat + p.1
    let extra := p.2 % charCode
    (ret' ++ [ctx.seps.getD (extra % ctx.seps.length) 'a'], alph')
  else (ret', alph')

/-- `_encode`'s final while-loop: wrap with shuffled alphabet halves and
trim symmetrically to the minimum length.  The fuel (`minLength + 1` at
the call site) covers every terminating run of the source loop with a
nonempty alphabet: a pass either reaches the target length exactly or
grows the string by the alphabet length. -/
def padLoop (minLen halfLen : Nat) : Nat → List Char → List Char → List Char
  | 0, _, ret => ret
  | Nat.succ fuel, alph, ret =>
      if ret.length < minLen then
        let alph' := shuffle alph alph
        let ret2 := alph'.drop halfLen ++ ret ++ alph'.take halfLen
        let excess := ret2.length - minLen
        let ret3 :=
          if 0 < excess then (ret2.drop (excess / 2)).take minLen else ret2
        padLoop minLen halfLen fuel alph' ret3
      else ret

/-- `_encode(numbers)`: lottery character, per-number digits with
separators, then guard and alphabet padding up to `minLength`. -/
def encodeRaw (ctx : Ctx) (numbers : List Nat) : List Char :=
  let nh := numbersHash numbers
  let lottery := ctx.alphabet.getD (nh % ctx.alphabet.length) 'a'
  let st := numbers.enum.foldl (encodeStep ctx lottery numbers.length)
    ([lottery], ctx.alphabet)
  let ret1 :=
    if st.1.length < ctx.minLength then
      let g1 := ctx.guards.getD
        ((nh + (st.1.getD 0 'a').toNat) % ctx.guards.length) 'a'
      let r := g1 :: st.1
      if r.length < ctx.minLength then
        r ++ [ctx.guards.getD
          ((nh + (r.getD 2 'a').toNat) % ctx.guards.length) 'a']
      else r
    else st.1
  padLoop ctx.minLength (st.2.length / 2) (ctx.minLength + 1) st.2 ret1

def optionList : List (Option Nat) → Option (List Nat)
  | [] => some []
  | none :: _ => none
  | some n :: rest => (optionList rest).map (n :: ·)

/-- `_decode(id)` plus the `decode` wrapper's empty-input guard: split on
guards, keep the middle part when guards produced 2 or 3 parts, strip the
lottery character, split the remainder on separators, read each group in
the successively shuffled alphabet, and accept only when re-encoding the
numbers reproduces the input. -/
def decodeRaw (ctx : Ctx) (id : List Char) : List Nat :=
  if id.length = 0 then []
  else
    let parts := splitOnChars ctx.guards id
    let i := if parts.length = 3 ∨ parts.length = 2 then 1 else 0
    let breakdown := parts.getD i []
    if breakdown.length = 0 then []
    else
      let lottery := breakdown.headD 'a'
      let idArray := splitOnChars ctx.seps breakdown.tail
      let st := idArray.foldl
        (fun (st : List (Option Nat) × List Char) sub =>
          let buffer := (lottery :: (ctx.salt ++ st.2)).take st.2.length
          let alph' := shuffle st.2 buffer
          (st.1 ++ [fromAlphabet alph' sub], alph'))
        ([], ctx.alphabet)
      match optionList st.1 with
      | none => []
      | some nums => if encodeRaw ctx nums = id then nums else []

end Hashids

/-- `generateSlug` (`lib/hashids.ts`): encode the counter with the salted
hashids instance (minimum length 6, base-62 alphabet). -/
def generateSlug (salt : List Char) (counter : Nat) : String :=
  ⟨Hashids.encodeRaw (Hashids.makeCtx salt) [counter]⟩

/-- `decodeSlug` (`lib/hashids.ts`): decode a slug back to its counter,
returning 0 when hashids yields no number. -/
def decodeSlug (salt : List Char) (slug : String) : Nat :=
  match Hashids.decodeRaw (Hashids.makeCtx salt) slug.data with
  | [] => 0
  | n :: _ => n

/-! ## Theorems -/

/-! ### Helper lemmas -/

theorem map_expire_filter (l : List RLEntry) (key : String) (t : Nat) :
    (l.filter (fun x => x.key != key)).map
      (fun e => if e.key == key then { e with windowEndsAt := some t } else e)
      = l.filter (fun x => x.key != key) := by
  induction l with
  | nil => rfl
  | cons a l ih =>
      by_cases h : (a.key == key) = true
      · have hb : (a.key != key) = false := by simp [bne, h]
        simp only [List.filter_cons, hb, Bool.false_eq_true, if_false, ih]
      · have hb : (a.key != key) = true := by simp [bne, h]
        simp only [List.filter_cons, hb, if_true, List.map_cons, if_neg h, ih]

/-! ### C6 — rate limiter fails open -/

/-- C6: when the limiting backend raises, the limiter fails open — the
result reports `success = true` and `remaining = limit` (with
`reset = now + window` seconds), the state is untouched, and no error
reaches the caller (the function returns a plain result). -/
theorem rateLimit_fails_open (st : RLState) (iph : String) (l w now : Nat) :
    rateLimit st iph l w now false =
      ({ success := true, limit := l, remaining := l,
         reset := now + w * 1000 }, st) := rfl

/-! ### C7 — fixed-window counter -/

/-- C7: with the backend available the limiter is a fixed-window counter:
the first request of a window creates the counter at 1 and stamps the
window's expiry `now + window` seconds ahead; a later request in a live
window increments the counter by one and leaves the expiry untouched; the
request is allowed exactly when the post-increment count is at most the
limit, and `remaining` is the truncated difference `limit - count`
(i.e. `max(0, limit - count)`). -/
theorem rateLimit_fixed_window (st : RLState) (iph : String) (l w now : Nat) :
    (0 < w → rlFind st ("rate_limit:" ++ iph) now = none →
      rateLimit st iph l w now true =
        ({ success := decide (1 ≤ l), limit := l, remaining := l - 1,
           reset := now + w * 1000 },
         ⟨{ key := "rate_limit:" ++ iph, count := 1,
            windowEndsAt := some (now + w * 1000) } ::
            st.entries.filter (fun x => x.key != "rate_limit:" ++ iph)⟩)) ∧
    (∀ e, rlFind st ("rate_limit:" ++ iph) now = some e → 1 ≤ e.count →
      rateLimit st iph l w now true =
        ({ success := decide (e.count + 1 ≤ l), limit := l,
           remaining := l - (e.count + 1),
           reset := now + redisTtl
             ⟨{ e with count := e.count + 1 } ::
               st.entries.filter (fun x => x.key != "rate_limit:" ++ iph)⟩
             ("rate_limit:" ++ iph) now * 1000 },
         ⟨{ e with count := e.count + 1 } ::
            st.entries.filter (fun x => x.key != "rate_limit:" ++ iph)⟩)) := by
  constructor
  · intro hw h
    have harith : (now + w * 1000 - now) / 1000 = w := by
      rw [Nat.add_sub_cancel_left, Nat.mul_div_cancel _ (by norm_num)]
    have hincr : redisIncr st ("rate_limit:" ++ iph) now =
        (1, ⟨{ key := "rate_limit:" ++ iph, count := 1, windowEndsAt := none }
              :: st.entries.filter (fun x => x.key != "rate_limit:" ++ iph)⟩)
        := by
      simp only [redisIncr, h]
    have hexp : redisExpire
        ⟨{ key := "rate_limit:" ++ iph, count := 1, windowEndsAt := none } ::
          st.entries.filter (fun x => x.key != "rate_limit:" ++ iph)⟩
        ("rate_limit:" ++ iph) (now + w * 1000) =
        ⟨{ key := "rate_limit:" ++ iph, count := 1,
           windowEndsAt := some (now + w * 1000) } ::
          st.entries.filter (fun x => x.key != "rate_limit:" ++ iph)⟩ := by
      simp only [redisExpire, List.map_cons, beq_self_eq_true, if_true,
        map_expire_filter]
    have hcond : ("rate_limit:" ++ iph == "rate_limit:" ++ iph &&
        rlLive { key := "rate_limit:" ++ iph, count := 1,
                 windowEndsAt := some (now + w * 1000) } now) = true := by
      simp only [beq_self_eq_true, Bool.true_and, rlLive, decide_eq_true_eq]
      omega
    have httl : redisTtl
        ⟨{ key := "rate_limit:" ++ iph, count := 1,
           windowEndsAt := some (now + w * 1000) } ::
          st.entries.filter (fun x => x.key != "rate_limit:" ++ iph)⟩
        ("rate_limit:" ++ iph) now = w := by
      have hfind : rlFind
          ⟨{ key := "rate_limit:" ++ iph, count := 1,
             windowEndsAt := some (now + w * 1000) } ::
            st.entries.filter (fun x => x.key != "rate_limit:" ++ iph)⟩
          ("rate_limit:" ++ iph) now =
          some { key := "rate_limit:" ++ iph, count := 1,
                 windowEndsAt := some (now + w * 1000) } := by
        unfold rlFind
        exact List.find?_cons_of_pos _ hcond
      unfold redisTtl
      rw [hfind]
      exact harith
    simp only [rateLimit, hincr, if_pos rfl, hexp, httl]
    simp [httl]
  · intro e h h1
    have hne : ¬ (e.count + 1 = 1) := by omega
    simp only [rateLimit, redisIncr, h, if_neg hne]
    simp

/-- Witness for C7 at a concrete fresh window. -/
theorem rateLimit_fixed_window_witness :
    rateLimit ⟨[]⟩ "ip" 5 60 0 true =
      ({ success := decide (1 ≤ 5), limit := 5, remaining := 5 - 1,
         reset := 0 + 60 * 1000 },
       ⟨[{ key := "rate_limit:ip", count := 1,
           windowEndsAt := some (0 + 60 * 1000) }]⟩) :=
  (rateLimit_fixed_window ⟨[]⟩ "ip" 5 60 0).1 (by decide) (by decide)

/-! ### C8 — cache-write failure never fails a create -/

/-- C8: a create that passed validation, policy and the store insert
returns the created paste even when the subsequent best-effort cache write
fails: the first component of `createPaste` is the same with `cacheOk`
false as with `cacheOk` true. -/
theorem createPaste_cacheFailure (slugOf : Nat → String) (s : ServiceState)
    (input : RawInput) (iph : String) (now : Nat) (p : Paste)
    (h : (createPaste slugOf s input iph now true true).1 = .ok p) :
    (createPaste slugOf s input iph now true false).1 = .ok p := by
  have key : (createPaste slugOf s input iph now true false).1 =
      (createPaste slugOf s input iph now true true).1 := by
    cases hv : validateCreatePasteInput input with
    | error z => simp only [createPaste, hv]
    | ok v => simp only [createPaste, hv]; split_ifs <;> rfl
  rw [key, h]

/-- Witness for C8: a concrete create whose cache write is failed. -/
theorem createPaste_cacheFailure_witness :
    (createPaste constSlug emptyState okInput "iphash" 0 true false).1 =
      .ok (rowToDomain
        { id := 1, slug := "s", content := "hi", language := "text",
          user_id := none, ip_hash := "iphash", created_at := 0,
          expires_at := some 604800000, view_count := 0,
          last_viewed_at := none, metadata := none }) :=
  createPaste_cacheFailure constSlug emptyState okInput "iphash" 0 _ (by decide)

/-! ### C9 — no side effects on validation/policy rejection -/

/-- C9: when `createPaste` rejects with a validation (Zod) error or with the
policy violation, the returned state equals the input state: the ID counter
is not incremented, no row is inserted, no cache entry is written. -/
theorem createPaste_pure_on_reject (slugOf : Nat → String) (s : ServiceState)
    (input : RawInput) (iph : String) (now : Nat) (io co : Bool) :
    (∀ z, (createPaste slugOf s input iph now io co).1 =
        .error (.zodError z) →
        (createPaste slugOf s input iph now io co).2 = s) ∧
    ((createPaste slugOf s input iph now io co).1 = .error .policyViolation →
        (createPaste slugOf s input iph now io co).2 = s) := by
  cases hv : validateCreatePasteInput input with
  | error z =>
      constructor
      · intro _ _; simp [createPaste, hv]
      · intro _; simp [createPaste, hv]
  | ok v =>
      constructor
      · intro z h
        simp only [createPaste, hv] at h ⊢
        split_ifs at h ⊢ <;> simp_all
      · intro h
        simp only [createPaste, hv] at h ⊢
        split_ifs at h ⊢ <;> simp_all

/-- Witness for C9: an empty-content create leaves the state unchanged. -/
theorem createPaste_pure_on_reject_witness :
    (createPaste constSlug emptyState
        { content := "", language := none, expiresIn := none, userId := none }
        "iphash" 0 true true).2 = emptyState :=
  (createPaste_pure_on_reject constSlug emptyState
      { content := "", language := none, expiresIn := none, userId := none }
      "iphash" 0 true true).1 .emptyContent (by decide)

/-! ### C10 — cache hits return fixed placeholder values -/

/-- C10: a `getPaste` answered from the cache returns a paste built only
from the cached projection: `id = 0`, `viewCount = 0`, `userId = null`,
`lastViewedAt = null`, `metadata = null`, regardless of the stored row's
actual values (the state, and so the store, is arbitrary here). -/
theorem cacheHit_placeholder_projection (s : ServiceState) (slug : String)
    (now : Nat) (c : CachedPaste)
    (h : getCachedPaste s slug now = some c) :
    (getPaste s slug now).1 =
      some { id := 0, slug := slug, content := c.content,
             language := c.language, userId := none,
             createdAt := c.created_at, expiresAt := c.expires_at,
             viewCount := 0, lastViewedAt := none, metadata := none } := by
  simp [getPaste, h, cachedPasteToDomain]

/-- Witness for C10: the stored row has `viewCount = 42` and an owner, yet
the cache-hit response reports the placeholders. -/
theorem cacheHit_placeholder_projection_witness :
    (getPaste c10State "zz" 100).1 =
      some { id := 0, slug := "zz", content := "cached", language := "go",
             userId := none, createdAt := 3, expiresAt := none,
             viewCount := 0, lastViewedAt := none, metadata := none } :=
  cacheHit_placeholder_projection c10State "zz" 100
    { content := "cached", language := "go", created_at := 3,
      expires_at := none } (by decide)

/-! ### C1 — expired pastes are still served (code bug) -/

/-- C1: the claim (and the spec) require `GetPaste` to return `none` for a
paste whose `expiresAt` is past, invalidating an expired cache hit and not
repopulating the cache on an expired store hit.  The code has no
`expires_at` check in the read path: at time 2000, a paste expired at 1000
is served from the cache, and — with the cache empty — is served from the
store and re-cached. -/
theorem expired_paste_still_served :
    (c1Row.expires_at = some 1000 ∧ 1000 < 2000) ∧
    (getPaste c1State "abc123" 2000).1 =
      some (cachedPasteToDomain "abc123"
        { content := "hello", language := "text", created_at := 0,
          expires_at := some 1000 }) ∧
    (getPaste c1StateNoCache "abc123" 2000).1 = some (rowToDomain c1Row) ∧
    getCachedPaste (getPaste c1StateNoCache "abc123" 2000).2 "abc123" 2000 ≠
      none := by decide

/-! ### C2 — view counting -/

/-- C2 counterexample: a successful read answered from the cache does not
increment the stored `view_count` — after M = 1 successful read the count
is still 0, not 1, refuting "incremented by exactly one for each successful
GetPaste read". -/
theorem viewCount_cacheHit_counterexample :
    ((getPaste c2State "ab" 0).1).isSome = true ∧
    (getPaste c2State "ab" 0).2 = c2State ∧
    ((getPaste c2State "ab" 0).2.store.map (fun r => r.view_count)) = [0] := by
  decide

/-- C2 amended: `viewCount` starts at 0 and never decreases, and it is
incremented by exactly one for each successful read served from the store
(cache miss with a matching row); reads answered from the cache leave the
store untouched, so after M successful reads the increase equals the number
of store-served reads among them, which may be less than M. -/
theorem viewCount_monotone_store_reads :
    (∀ (slugOf : Nat → String) s input iph now io co p,
        (createPaste slugOf s input iph now io co).1 = .ok p →
        p.viewCount = 0) ∧
    (∀ s slug now c, getCachedPaste s slug now = some c →
        (getPaste s slug now).2 = s) ∧
    (∀ s slug now row, getCachedPaste s slug now = none →
        findBySlug s.store slug = some row →
        (getPaste s slug now).1 = some (rowToDomain row) ∧
        (getPaste s slug now).2.store = bumpView s.store row.id now) ∧
    (∀ s slug now, List.Forall₂
        (fun r r' => r.view_count ≤ r'.view_count ∧
          r'.view_count ≤ r.view_count + 1)
        s.store (getPaste s slug now).2.store) := by
  refine ⟨?_, ?_, ?_, ?_⟩
  · intro slugOf s input iph now io co p h
    cases hv : validateCreatePasteInput input with
    | error z => simp [createPaste, hv] at h
    | ok v =>
        simp only [createPaste, hv] at h
        split_ifs at h
        all_goals (cases h; rfl)
  · intro s slug now c h
    simp [getPaste, h]
  · intro s slug now row hc hrow
    simp only [getPaste, hc, hrow]
    exact ⟨trivial, rfl⟩
  · intro s slug now
    cases hc : getCachedPaste s slug now with
    | some c =>
        simp only [getPaste, hc]
        exact (List.forall₂_same).2 (fun x _ => ⟨le_refl _, Nat.le_succ _⟩)
    | none =>
        cases hrow : findBySlug s.store slug with
        | none =>
            simp only [getPaste, hc, hrow]
            exact (List.forall₂_same).2 (fun x _ => ⟨le_refl _, Nat.le_succ _⟩)
        | some row =>
            simp only [getPaste, hc, hrow, bumpView]
            rw [List.forall₂_map_right_iff]
            refine (List.forall₂_same).2 (fun x _ => ?_)
            by_cases h : x.id = row.id
            · simp [h]
            · simp [h]

/-- Witness for C2's amended statement at a concrete store-served read. -/
theorem viewCount_monotone_store_reads_witness :
    (getPaste c2MissState "ab" 5).1 = some (rowToDomain c2Row) ∧
    (getPaste c2MissState "ab" 5).2.store = bumpView c2MissState.store c2Row.id 5 :=
  viewCount_monotone_store_reads.2.2.1 c2MissState "ab" 5 c2Row
    (by decide) (by decide)

/-! ### C5 — anonymous + never -/

/-- C5 counterexample: an anonymous request with `expiresIn = never` and
empty (invalid) content is rejected by validation (HTTP 400), not with the
policy violation — refuting "fails with the policy-violation outcome
regardless of whether the content is otherwise valid". -/
theorem anonymous_never_invalid_content_counterexample :
    (createPaste constSlug emptyState c5Input "iphash" 0 true true).1 =
      .error (.zodError .emptyContent) ∧
    postStatus (createPaste constSlug emptyState c5Input "iphash" 0 true true).1
      = 400 ∧
    (CreateError.zodError .emptyContent ≠ .policyViolation) := by decide

/-- C5 amended: an anonymous create (`userId` absent or null) whose input
passes Zod validation and whose expiration selector is `never` always fails
with the policy violation (HTTP 403), distinct from validation failure, and
leaves the state unchanged; when validation fails, the validation error is
raised first instead. -/
theorem anonymous_never_policy (slugOf : Nat → String) (s : ServiceState)
    (input : RawInput) (iph : String) (now : Nat) (io co : Bool)
    (v : ValidatedInput)
    (hv : validateCreatePasteInput input = .ok v)
    (hu : v.userId = none) (he : v.expiresIn = "never") :
    createPaste slugOf s input iph now io co = (.error .policyViolation, s) ∧
    routeStatus .policyViolation = 403 := by
  constructor
  · simp only [createPaste, hv]
    rw [if_pos ⟨hu, he⟩]
  · decide

/-- Witness for C5's amended statement. -/
theorem anonymous_never_policy_witness :
    createPaste constSlug emptyState c5ValidInput "iphash" 0 true true =
      (.error .policyViolation, emptyState) ∧
    routeStatus .policyViolation = 403 :=
  anonymous_never_policy constSlug emptyState c5ValidInput "iphash" 0 true true
    { content := "hi", language := "text", expiresIn := "never",
      userId := none }
    (by decide) rfl rfl

/-! ### C4 — oversized content -/

theorem jsLength_replicate (n : Nat) (c : Char) :
    jsLength ⟨List.replicate n c⟩ = n * utf16Size c := by
  unfold jsLength
  simp [List.map_replicate, List.sum_replicate, smul_eq_mul]

theorem utf8Length_replicate (n : Nat) (c : Char) :
    utf8Length ⟨List.replicate n c⟩ = n * utf8Size' c := by
  unfold utf8Length
  simp [List.map_replicate, List.sum_replicate, smul_eq_mul]

theorem sum_map_dropWhile_le (f : Char → Nat) (p : Char → Bool)
    (l : List Char) :
    ((l.dropWhile p).map f).sum ≤ (l.map f).sum := by
  induction l with
  | nil => simp
  | cons a l ih =>
      rw [List.dropWhile_cons]
      split_ifs
      · simp only [List.map_cons, List.sum_cons]
        omega
      · exact le_refl _

theorem sum_map_reverse_eq (f : Char → Nat) (l : List Char) :
    ((l.reverse).map f).sum = (l.map f).sum := by
  rw [List.map_reverse, List.sum_reverse]

/-- Trimming never increases the UTF-8 byte length. -/
theorem utf8Length_trim_le (s : String) :
    utf8Length (jsTrim s) ≤ utf8Length s := by
  unfold jsTrim utf8Length
  calc ((((s.data.dropWhile (· ∈ jsWhitespaceChars)).reverse.dropWhile
          (· ∈ jsWhitespaceChars)).reverse).map utf8Size').sum
      = (((s.data.dropWhile (· ∈ jsWhitespaceChars)).reverse.dropWhile
          (· ∈ jsWhitespaceChars)).map utf8Size').sum :=
        sum_map_reverse_eq _ _
    _ ≤ (((s.data.dropWhile (· ∈ jsWhitespaceChars)).reverse).map
          utf8Size').sum := sum_map_dropWhile_le _ _ _
    _ = ((s.data.dropWhile (· ∈ jsWhitespaceChars)).map utf8Size').sum :=
        sum_map_reverse_eq _ _
    _ ≤ (s.data.map utf8Size').sum := sum_map_dropWhile_le _ _ _

/-- Inversion: a validated input's content is the trimmed raw content. -/
theorem validate_ok_content (i : RawInput) (v : ValidatedInput)
    (h : validateCreatePasteInput i = .ok v) : v.content = jsTrim i.content := by
  unfold validateCreatePasteInput validateCreatePasteInput.validateRest
    validateCreatePasteInput.validateUser at h
  repeat' split at h
  all_goals cases h
  all_goals rfl

/-- A raw content within the UTF-16 limit never yields the too-long Zod
issue. -/
theorem validate_not_tooLong (i : RawInput)
    (hle : jsLength i.content ≤ CONTENT_SIZE_LIMIT) :
    validateCreatePasteInput i ≠ .error .contentTooLong := by
  intro h
  unfold validateCreatePasteInput validateCreatePasteInput.validateRest
    validateCreatePasteInput.validateUser at h
  repeat' split at h
  all_goals try (cases h)
  all_goals omega

/-- A validation failure short-circuits `createPaste` to a `zodError` with
the state unchanged. -/
theorem createPaste_validation_error (slugOf : Nat → String)
    (s : ServiceState) (input : RawInput) (iph : String) (now : Nat)
    (io co : Bool) (z : ZodIssue)
    (h : validateCreatePasteInput input = .error z) :
    createPaste slugOf s input iph now io co = (.error (.zodError z), s) := by
  simp [createPaste, h]

/-- Content of 102,401 ASCII bytes. -/
def bigA : String := ⟨List.replicate 102401 'a'⟩

def c4Input : RawInput :=
  { content := bigA, language := none, expiresIn := none, userId := none }

/-- C4 counterexample: a create whose content has UTF-8 byte length 102,401
(over the limit) is rejected with status 400 (Zod validation, which counts
UTF-16 units), not with the oversized-content outcome 413 that the claim
requires. -/
theorem oversize_status_counterexample :
    utf8Length bigA = 102401 ∧
    (createPaste constSlug emptyState c4Input "iphash" 0 true true).1 =
      .error (.zodError .contentTooLong) ∧
    postStatus (createPaste constSlug emptyState c4Input "iphash" 0 true
      true).1 = 400 ∧
    (400 ≠ 413) := by
  have hjs : jsLength bigA = 102401 := by
    show jsLength ⟨List.replicate 102401 'a'⟩ = 102401
    rw [jsLength_replicate, show utf16Size 'a' = 1 from by decide,
      Nat.mul_one]
  have hbytes : utf8Length bigA = 102401 := by
    show utf8Length ⟨List.replicate 102401 'a'⟩ = 102401
    rw [utf8Length_replicate, show utf8Size' 'a' = 1 from by decide,
      Nat.mul_one]
  have hv : validateCreatePasteInput c4Input = .error .contentTooLong := by
    unfold validateCreatePasteInput
    have h1 : ¬ (jsLength c4Input.content < 1) := by
      show ¬ (jsLength bigA < 1)
      rw [hjs]; omega
    have h2 : CONTENT_SIZE_LIMIT < jsLength c4Input.content := by
      show CONTENT_SIZE_LIMIT < jsLength bigA
      rw [hjs]; norm_num [CONTENT_SIZE_LIMIT]
    rw [if_neg h1, if_pos h2]
  refine ⟨hbytes, ?_, ?_, by omega⟩
  · rw [createPaste_validation_error _ _ _ _ _ _ _ _ hv]
  · rw [createPaste_validation_error _ _ _ _ _ _ _ _ hv]
    rfl

/-- C4 amended: content whose UTF-8 byte length exceeds 102,400 is always
rejected, but the status depends on which check fires: when the UTF-16
length itself exceeds 102,400 the rejection is Zod validation (HTTP 400);
when validation passes (and the request is not an anonymous-never policy
rejection) and the trimmed content still exceeds 102,400 UTF-8 bytes the
rejection is the oversized-content outcome (HTTP 413); content whose UTF-8
byte length is at most 102,400 is never rejected for size by either
check. -/
theorem oversize_rejection_amended :
    (∀ (slugOf : Nat → String) s input iph now io co,
        CONTENT_SIZE_LIMIT < jsLength input.content →
        (createPaste slugOf s input iph now io co).1 =
          .error (.zodError .contentTooLong) ∧
        postStatus (createPaste slugOf s input iph now io co).1 = 400) ∧
    (∀ (slugOf : Nat → String) s input iph now io co v,
        validateCreatePasteInput input = .ok v →
        ¬(v.userId = none ∧ v.expiresIn = "never") →
        CONTENT_SIZE_LIMIT < utf8Length v.content →
        (createPaste slugOf s input iph now io co).1 =
          .error .contentTooLarge ∧
        postStatus (createPaste slugOf s input iph now io co).1 = 413) ∧
    (∀ (slugOf : Nat → String) s input iph now io co,
        utf8Length input.content ≤ CONTENT_SIZE_LIMIT →
        (createPaste slugOf s input iph now io co).1 ≠
          .error (.zodError .contentTooLong) ∧
        (createPaste slugOf s input iph now io co).1 ≠
          .error .contentTooLarge) := by
  refine ⟨?_, ?_, ?_⟩
  · intro slugOf s input iph now io co hlt
    have hv : validateCreatePasteInput input = .error .contentTooLong := by
      unfold validateCreatePasteInput
      rw [if_neg (by omega), if_pos hlt]
    constructor
    · simp [createPaste, hv]
    · simp [createPaste, hv, postStatus, routeStatus]
  · intro slugOf s input iph now io co v hv hpol hsize
    have hs : shouldUseObjectStorage v.content = true := by
      simpa [shouldUseObjectStorage] using hsize
    constructor
    · simp [createPaste, hv, if_neg hpol, hs]
    · simp only [createPaste, hv, if_neg hpol, hs, if_true]
      decide
  · intro slugOf s input iph now io co hle
    constructor
    · intro h
      cases hv : validateCreatePasteInput input with
      | error z =>
          simp only [createPaste, hv] at h
          have hz : z = .contentTooLong := by simpa using h
          exact validate_not_tooLong input
            (le_trans (jsLength_le_utf8Length input.content) hle) (hz ▸ hv)
      | ok v =>
          simp only [createPaste, hv] at h
          split_ifs at h <;> simp_all
    · intro h
      cases hv : validateCreatePasteInput input with
      | error z =>
          simp only [createPaste, hv] at h
          simp at h
      | ok v =>
          have hs : shouldUseObjectStorage v.content = false := by
            have h2 : utf8Length v.content ≤ CONTENT_SIZE_LIMIT := by
              rw [validate_ok_content input v hv]
              exact le_trans (utf8Length_trim_le input.content) hle
            unfold shouldUseObjectStorage
            simp only [decide_eq_false_iff_not, not_lt]
            exact h2
          simp only [createPaste, hv, hs] at h
          split_ifs at h <;> simp_all

/-- Witness for C4's amended statement at the 102,401-character input. -/
theorem oversize_rejection_amended_witness :
    (createPaste constSlug emptyState c4Input "iphash" 0 true true).1 =
      .error (.zodError .contentTooLong) ∧
    postStatus (createPaste constSlug emptyState c4Input "iphash" 0 true
      true).1 = 400 :=
  oversize_rejection_amended.1 constSlug emptyState c4Input "iphash" 0 true
    true (by
      have hj : jsLength bigA = 102401 := by
        show jsLength ⟨List.replicate 102401 'a'⟩ = 102401
        rw [jsLength_replicate, show utf16Size 'a' = 1 from by decide,
          Nat.mul_one]
      show CONTENT_SIZE_LIMIT < jsLength c4Input.content
      have : c4Input.content = bigA := rfl
      rw [this, hj]
      norm_num [CONTENT_SIZE_LIMIT])

/-! ### C3 — hashids lemmas: the shuffle permutes -/

theorem get_cons_set_perm (x : Char) :
    ∀ (xs : List Char) (j : Nat) (hj : j < xs.length),
      List.Perm (xs.get ⟨j, hj⟩ :: xs.set j x) (x :: xs) := by
  intro xs
  induction xs with
  | nil => intro j hj; simp at hj
  | cons y ys ih =>
      intro j hj
      cases j with
      | zero => exact List.Perm.swap x y ys
      | succ j =>
          have hj' : j < ys.length := by simpa using hj
          have h1 : List.Perm (ys.get ⟨j, hj'⟩ :: y :: ys.set j x)
              (y :: ys.get ⟨j, hj'⟩ :: ys.set j x) := List.Perm.swap _ _ _
          have h2 : List.Perm (y :: ys.get ⟨j, hj'⟩ :: ys.set j x)
              (y :: x :: ys) := (ih j hj').cons y
          have h3 : List.Perm (y :: x :: ys) (x :: y :: ys) :=
            List.Perm.swap x y ys
          exact h1.trans (h2.trans h3)

theorem set_set_swap_perm :
    ∀ (l : List Char) (i j : Nat) (hi : i < l.length) (hj : j < l.length),
      List.Perm ((l.set j (l.get ⟨i, hi⟩)).set i (l.get ⟨j, hj⟩)) l := by
  intro l
  induction l with
  | nil => intro i j hi; simp at hi
  | cons x xs ih =>
      intro i j hi hj
      cases i with
      | zero =>
          cases j with
          | zero => simp
          | succ j =>
              have hj' : j < xs.length := by simpa using hj
              simpa using get_cons_set_perm x xs j hj'
      | succ i =>
          have hi' : i < xs.length := by simpa using hi
          cases j with
          | zero => simpa using get_cons_set_perm x xs i hi'
          | succ j =>
              have hj' : j < xs.length := by simpa using hj
              simpa using (ih i j hi' hj').cons x

theorem swapAt'_perm (l : List Char) (i j : Nat) :
    List.Perm (Hashids.swapAt' l i j) l := by
  unfold Hashids.swapAt'
  cases hgi : l.get? i with
  | none => exact List.Perm.refl l
  | some a =>
      cases hgj : l.get? j with
      | none => exact List.Perm.refl l
      | some b =>
          obtain ⟨hi, hieq⟩ := List.get?_eq_some.1 hgi
          obtain ⟨hj, hjeq⟩ := List.get?_eq_some.1 hgj
          rw [← hieq, ← hjeq]
          exact set_set_swap_perm l i j hi hj

theorem shuffleGo_perm (salt : List Char) :
    ∀ (i t p : Nat) (l : List Char),
      List.Perm (Hashids.shuffleGo salt i t p l) l := by
  intro i
  induction i with
  | zero => intro t p l; exact List.Perm.refl l
  | succ i ih =>
      intro t p l
      exact (ih _ _ _).trans (swapAt'_perm l _ _)

theorem shuffle_perm (l salt : List Char) :
    List.Perm (Hashids.shuffle l salt) l := by
  unfold Hashids.shuffle
  split_ifs
  · exact List.Perm.refl l
  · exact shuffleGo_perm salt _ _ _ l

theorem shuffle_length (l salt : List Char) :
    (Hashids.shuffle l salt).length = l.length :=
  (shuffle_perm l salt).length_eq

theorem shuffle_nodup (l salt : List Char) (h : l.Nodup) :
    (Hashids.shuffle l salt).Nodup :=
  ((shuffle_perm l salt).nodup_iff).2 h

theorem shuffle_mem (l salt : List Char) (c : Char) :
    c ∈ Hashids.shuffle l salt ↔ c ∈ l :=
  (shuffle_perm l salt).mem_iff

/-! ### C3 — hashids lemmas: indexing, base conversion -/

theorem getD_mem (l : List Char) (i : Nat) (h : i < l.length) (d : Char) :
    l.getD i d ∈ l := by
  induction l generalizing i with
  | nil => simp at h
  | cons a t ih =>
      cases i with
      | zero => simp [List.getD_cons_zero]
      | succ i =>
          rw [List.getD_cons_succ]
          exact List.mem_cons_of_mem a (ih i (by simpa using h))

theorem idxIn_getD (l : List Char) (hnd : l.Nodup) :
    ∀ (i : Nat), i < l.length → Hashids.idxIn (l.getD i 'a') l = i := by
  induction l with
  | nil => intro i h; simp at h
  | cons a t ih =>
      intro i h
      cases i with
      | zero => simp [List.getD_cons_zero, Hashids.idxIn]
      | succ i =>
          have hit : i < t.length := by simpa using h
          have hmem : t.getD i 'a' ∈ t := getD_mem t i hit 'a'
          have hane : ¬ a = t.getD i 'a' := by
            intro hcontra
            exact (List.nodup_cons.1 hnd).1 (hcontra ▸ hmem)
          rw [List.getD_cons_succ, Hashids.idxIn, if_neg hane,
            ih (List.nodup_cons.1 hnd).2 i hit]

theorem toAlphabet_big_eq (alph : List Char) (n : Nat)
    (h2 : ¬ alph.length ≤ 1) (hge : ¬ n < alph.length) :
    Hashids.toAlphabet alph n =
      Hashids.toAlphabet alph (n / alph.length) ++
        [alph.getD (n % alph.length) 'a'] := by
  rw [Hashids.toAlphabet]
  rw [dif_neg h2, dif_neg hge]

theorem toAlphabet_small_eq (alph : List Char) (n : Nat)
    (h2 : ¬ alph.length ≤ 1) (hlt : n < alph.length) :
    Hashids.toAlphabet alph n = [alph.getD n 'a'] := by
  rw [Hashids.toAlphabet]
  rw [dif_neg h2, dif_pos hlt]

theorem toAlphabet_ne_nil (alph : List Char) (n : Nat) :
    Hashids.toAlphabet alph n ≠ [] := by
  rw [Hashids.toAlphabet]
  split_ifs <;> simp

theorem toAlphabet_mem (alph : List Char) (h2 : ¬ alph.length ≤ 1) :
    ∀ (n : Nat), ∀ c ∈ Hashids.toAlphabet alph n, c ∈ alph := by
  have hpos : 0 < alph.length := by omega
  intro n
  induction n using Nat.strong_induction_on with
  | _ n ih =>
      intro c hc
      by_cases hlt : n < alph.length
      · rw [toAlphabet_small_eq alph n h2 hlt] at hc
        simp only [List.mem_singleton] at hc
        exact hc ▸ getD_mem alph n hlt 'a'
      · rw [toAlphabet_big_eq alph n h2 hlt] at hc
        rcases List.mem_append.1 hc with h | h
        · exact ih (n / alph.length)
            (Nat.div_lt_self (by omega) (by omega)) c h
        · simp only [List.mem_singleton] at h
          exact h ▸ getD_mem alph _ (Nat.mod_lt _ hpos) 'a'

theorem fromAlphabet_foldl (alph : List Char) (hnd : alph.Nodup)
    (h2 : ¬ alph.length ≤ 1) :
    ∀ (n : Nat), ∀ (v : Nat),
      (Hashids.toAlphabet alph n).foldl
        (fun acc c =>
          match acc with
          | none => none
          | some v =>
              if c ∈ alph then some (v * alph.length + Hashids.idxIn c alph)
              else none)
        (some v) =
      some (v * alph.length ^ (Hashids.toAlphabet alph n).length + n) := by
  intro n
  induction n using Nat.strong_induction_on with
  | _ n ih =>
      intro v
      by_cases hlt : n < alph.length
      · rw [toAlphabet_small_eq alph n h2 hlt]
        simp only [List.foldl_cons, List.foldl_nil, List.length_singleton,
          pow_one]
        rw [if_pos (getD_mem alph n hlt 'a'), idxIn_getD alph hnd n hlt]
      · rw [toAlphabet_big_eq alph n h2 hlt]
        rw [List.foldl_append,
          ih (n / alph.length) (Nat.div_lt_self (by omega) (by omega)) v]
        have hmod : n % alph.length < alph.length :=
          Nat.mod_lt _ (by omega)
        simp only [List.foldl_cons, List.foldl_nil]
        rw [if_pos (getD_mem alph _ hmod 'a'), idxIn_getD alph hnd _ hmod]
        rw [List.length_append, List.length_singleton]
        congr 1
        have hdm := Nat.div_add_mod n alph.length
        set k := (Hashids.toAlphabet alph (n / alph.length)).length
        calc (v * alph.length ^ k + n / alph.length) * alph.length +
              n % alph.length
            = v * (alph.length ^ k * alph.length) +
              (alph.length * (n / alph.length) + n % alph.length) := by ring
          _ = v * alph.length ^ (k + 1) + n := by rw [hdm, pow_succ]

theorem fromAlphabet_toAlphabet (alph : List Char) (hnd : alph.Nodup)
    (h2 : ¬ alph.length ≤ 1) (n : Nat) :
    Hashids.fromAlphabet alph (Hashids.toAlphabet alph n) = some n := by
  unfold Hashids.fromAlphabet
  rw [fromAlphabet_foldl alph hnd h2 n 0]
  simp

/-! ### C3 — hashids lemmas: salt-buffer congruence and splitting -/

theorem shuffleGo_congr (s₁ s₂ : List Char) :
    ∀ (i t p : Nat) (l : List Char),
      (∀ u, t ≤ u → u < t + i →
        u % s₁.length = u % s₂.length ∧
        s₁.getD (u % s₁.length) 'a' = s₂.getD (u % s₂.length) 'a') →
      Hashids.shuffleGo s₁ i t p l = Hashids.shuffleGo s₂ i t p l := by
  intro i
  induction i with
  | zero => intro t p l _; rfl
  | succ i ih =>
      intro t p l h
      have ht := h t (le_refl t) (by omega)
      simp only [Hashids.shuffleGo]
      rw [ht.2, ht.1]
      exact ih (t + 1) _ _ (fun u hu1 hu2 => h u (by omega) (by omega))

theorem shuffle_take_eq (l buf : List Char) (hlen : l.length ≤ buf.length) :
    Hashids.shuffle l (buf.take l.length) = Hashids.shuffle l buf := by
  unfold Hashids.shuffle
  by_cases hl : l.length = 0
  · rw [hl]
    simp only [List.take_zero, List.length_nil]
    split_ifs <;> rfl
  · have htl : (buf.take l.length).length = l.length := by
      rw [List.length_take, min_eq_left hlen]
    rw [if_neg (by omega : ¬ (buf.take l.length).length = 0),
      if_neg (by omega : ¬ buf.length = 0)]
    apply shuffleGo_congr
    intro u hu0 hu1
    have hul : u < l.length := by omega
    have hub : u < buf.length := by omega
    have h1 : u % (buf.take l.length).length = u := by
      rw [htl]; exact Nat.mod_eq_of_lt hul
    have h2 : u % buf.length = u := Nat.mod_eq_of_lt hub
    refine ⟨by rw [h1, h2], ?_⟩
    rw [h1, h2, List.getD_eq_getElem?_getD, List.getD_eq_getElem?_getD,
      List.getElem?_take_of_lt hul]

theorem splitOnChars_ne_nil (ds l : List Char) :
    Hashids.splitOnChars ds l ≠ [] := by
  cases l with
  | nil => simp [Hashids.splitOnChars]
  | cons c rest =>
      rw [Hashids.splitOnChars]
      split_ifs
      · simp
      · cases h : Hashids.splitOnChars ds rest <;> simp

theorem splitOnChars_no_delim (ds : List Char) :
    ∀ (l : List Char), (∀ c ∈ l, ¬ c ∈ ds) →
      Hashids.splitOnChars ds l = [l] := by
  intro l
  induction l with
  | nil => intro _; rfl
  | cons c rest ih =>
      intro h
      rw [Hashids.splitOnChars, if_neg (h c (List.mem_cons_self c rest)),
        ih (fun x hx => h x (List.mem_cons_of_mem c hx))]

theorem splitOnChars_delim_cons (ds : List Char) (g : Char) (hg : g ∈ ds)
    (l : List Char) :
    Hashids.splitOnChars ds (g :: l) = [] :: Hashids.splitOnChars ds l := by
  rw [Hashids.splitOnChars, if_pos hg]

theorem splitOnChars_append_free (ds : List Char) :
    ∀ (a : List Char), (∀ c ∈ a, ¬ c ∈ ds) → ∀ (b : List Char),
      Hashids.splitOnChars ds (a ++ b) =
        (a ++ (Hashids.splitOnChars ds b).headD []) ::
          (Hashids.splitOnChars ds b).tail := by
  intro a
  induction a with
  | nil =>
      intro _ b
      cases hsb : Hashids.splitOnChars ds b with
      | nil => exact absurd hsb (splitOnChars_ne_nil ds b)
      | cons p ps => simp [hsb]
  | cons c a' ih =>
      intro h b
      rw [List.cons_append, Hashids.splitOnChars,
        if_neg (h c (List.mem_cons_self c a')),
        ih (fun x hx => h x (List.mem_cons_of_mem c hx)) b]
      simp

/-! ### C3 — hashids lemmas: the constructor's derived alphabets -/

/-- The 48-character working alphabet before salting: the 62 alphanumerics
with the separator characters removed. -/
abbrev ALPH48 : List Char :=
  Hashids.ALPHABET62.eraseDups.filter (fun c => ¬ c ∈ Hashids.SEPCHARS)

/-- The separator characters present in the alphabet (all 14). -/
abbrev SEPSF : List Char :=
  Hashids.SEPCHARS.filter (fun c => c ∈ Hashids.ALPHABET62.eraseDups)

theorem ALPH48_length : ALPH48.length = 48 := by decide

theorem ALPH48_nodup : ALPH48.Nodup := by decide

theorem SEPSF_length : SEPSF.length = 14 := by decide

theorem ALPH48_sub : ∀ c ∈ ALPH48, c ∈ Hashids.ALPHABET62 := by decide

theorem SEPSF_sub : ∀ c ∈ SEPSF, c ∈ Hashids.ALPHABET62 := by decide

theorem ALPH48_SEPSF_disjoint : ∀ c ∈ ALPH48, ¬ c ∈ SEPSF := by decide

/-- With the wrapper's 62-character alphabet the constructor's separator
rebalancing does not trigger (48/14 ≤ 3.5) and the guards are the first 4
characters of the salted 48-character alphabet. -/
theorem makeCtx_eq (salt : List Char) :
    Hashids.makeCtx salt =
      { salt := salt, minLength := 6,
        alphabet := (Hashids.shuffle ALPH48 salt).drop 4,
        seps := Hashids.shuffle SEPSF salt,
        guards := (Hashids.shuffle ALPH48 salt).take 4 } := by
  have hs : (Hashids.shuffle SEPSF salt).length = 14 := by
    rw [shuffle_length]; exact SEPSF_length
  have ha : (Hashids.shuffle ALPH48 salt).length = 48 := by
    rw [shuffle_length]; exact ALPH48_length
  have hcond : ¬ ((Hashids.shuffle SEPSF salt).length = 0 ∨
      2 * ALPH48.length > 7 * (Hashids.shuffle SEPSF salt).length) := by
    rw [hs, ALPH48_length]; decide
  unfold Hashids.makeCtx
  simp only []
  rw [if_neg hcond]
  simp only []
  rw [if_neg (by rw [ha]; decide :
    ¬ (Hashids.shuffle ALPH48 salt).length < 3)]
  rw [ha]

theorem makeCtx_facts (salt : List Char) :
    (Hashids.makeCtx salt).alphabet.length = 44 ∧
    (Hashids.makeCtx salt).alphabet.Nodup ∧
    (Hashids.makeCtx salt).guards.length = 4 ∧
    (Hashids.makeCtx salt).minLength = 6 ∧
    List.Disjoint (Hashids.makeCtx salt).alphabet
      (Hashids.makeCtx salt).guards ∧
    List.Disjoint (Hashids.makeCtx salt).alphabet
      (Hashids.makeCtx salt).seps ∧
    (∀ c ∈ (Hashids.makeCtx salt).alphabet, c ∈ Hashids.ALPHABET62) ∧
    (∀ c ∈ (Hashids.makeCtx salt).guards, c ∈ Hashids.ALPHABET62) := by
  rw [makeCtx_eq]
  have ha : (Hashids.shuffle ALPH48 salt).length = 48 := by
    rw [shuffle_length]; exact ALPH48_length
  have hnd : (Hashids.shuffle ALPH48 salt).Nodup :=
    shuffle_nodup _ _ ALPH48_nodup
  have hsplit := List.take_append_drop 4 (Hashids.shuffle ALPH48 salt)
  have hnd2 : ((Hashids.shuffle ALPH48 salt).take 4 ++
      (Hashids.shuffle ALPH48 salt).drop 4).Nodup := by rw [hsplit]; exact hnd
  have hdisj := (List.nodup_append.1 hnd2).2.2
  refine ⟨?_, ?_, ?_, rfl, ?_, ?_, ?_, ?_⟩
  · rw [List.length_drop, ha]
  · exact (List.drop_sublist 4 _).nodup hnd
  · rw [List.length_take, ha]
    decide
  · exact hdisj.symm
  · intro c hc hcs
    have h48 : c ∈ ALPH48 :=
      (shuffle_mem _ salt c).1 (List.mem_of_mem_drop hc)
    have hsf : c ∈ SEPSF := (shuffle_mem _ salt c).1 hcs
    exact ALPH48_SEPSF_disjoint c h48 hsf
  · intro c hc
    exact ALPH48_sub c ((shuffle_mem _ salt c).1 (List.mem_of_mem_drop hc))
  · intro c hc
    exact ALPH48_sub c ((shuffle_mem _ salt c).1 (List.mem_of_mem_take hc))

/-! ### C3 — hashids lemmas: single-number encode/decode reductions -/

theorem numbersHash_single (n : Nat) : Hashids.numbersHash [n] = n % 100 := by
  simp [Hashids.numbersHash]

/-- `_encode([n])` unfolded: lottery character, one digit group, guard
padding, alphabet padding. -/
theorem encodeRaw_single (ctx : Hashids.Ctx) (n : Nat) :
    Hashids.encodeRaw ctx [n] =
      (let nh := n % 100
       let L := ctx.alphabet.getD (nh % ctx.alphabet.length) 'a'
       let A' := Hashids.shuffle ctx.alphabet (L :: (ctx.salt ++ ctx.alphabet))
       let D := Hashids.toAlphabet A' n
       let r0 := L :: D
       let ret1 :=
         if r0.length < ctx.minLength then
           let g1 := ctx.guards.getD ((nh + L.toNat) % ctx.guards.length) 'a'
           let r := g1 :: r0
           if r.length < ctx.minLength then
             r ++ [ctx.guards.getD ((nh + (r.getD 2 'a').toNat) %
               ctx.guards.length) 'a']
           else r
         else r0
       Hashids.padLoop ctx.minLength (A'.length / 2) (ctx.minLength + 1)
         A' ret1) := by
  unfold Hashids.encodeRaw Hashids.encodeStep
  rw [numbersHash_single]
  simp only [List.enum, List.enumFrom, List.foldl_cons, List.foldl_nil,
    List.length_singleton]
  norm_num

/-- `_decode` returns `[n]` whenever the guard split isolates a breakdown
`L :: D` whose digits decode to `n` in the lottery-shuffled alphabet and
re-encoding reproduces the input. -/
theorem decodeRaw_parse (ctx : Hashids.Ctx) (id : List Char) (L : Char)
    (D : List Char) (n : Nat)
    (hidne : ¬ id.length = 0)
    (hparts : (Hashids.splitOnChars ctx.guards id).getD
      (if (Hashids.splitOnChars ctx.guards id).length = 3 ∨
          (Hashids.splitOnChars ctx.guards id).length = 2 then 1 else 0) []
      = L :: D)
    (hDfree : ∀ c ∈ D, ¬ c ∈ ctx.seps)
    (hfa : Hashids.fromAlphabet
      (Hashids.shuffle ctx.alphabet
        ((L :: (ctx.salt ++ ctx.alphabet)).take ctx.alphabet.length)) D =
      some n)
    (henc : Hashids.encodeRaw ctx [n] = id) :
    Hashids.decodeRaw ctx id = [n] := by
  unfold Hashids.decodeRaw
  rw [if_neg hidne]
  simp only [hparts, List.length_cons, List.headD_cons, List.tail_cons]
  rw [if_neg (by omega : ¬ D.length + 1 = 0)]
  rw [splitOnChars_no_delim ctx.seps D hDfree]
  simp only [List.foldl_cons, List.foldl_nil, List.nil_append]
  rw [hfa]
  simp only [Hashids.optionList, Option.map]
  rw [if_pos henc]

theorem padLoop_of_not_lt (m h fuel : Nat) (alph ret : List Char)
    (hr : ¬ ret.length < m) :
    Hashids.padLoop m h fuel alph ret = ret := by
  cases fuel with
  | zero => rfl
  | succ f => rw [Hashids.padLoop, if_neg hr]

theorem padLoop_step (m h fuel : Nat) (alph ret : List Char)
    (hr : ret.length < m) :
    Hashids.padLoop m h (fuel + 1) alph ret =
      (let alph' := Hashids.shuffle alph alph
       let ret2 := alph'.drop h ++ ret ++ alph'.take h
       let excess := ret2.length - m
       let ret3 :=
         if 0 < excess then (ret2.drop (excess / 2)).take m else ret2
       Hashids.padLoop m h fuel alph' ret3) := by
  rw [Hashids.padLoop, if_pos hr]

/-! ### C3 — hashids lemmas: guard-split shapes

The encoded slug takes one of five forms depending on the digit count:
bare core, prefix guard, prefix and suffix guard, and the two
alphabet-padded forms.  Each lemma computes the part selected by
`_decode`'s split index. -/

theorem parts_shape1 (ds : List Char) (L : Char) (D : List Char)
    (hfree : ∀ c ∈ L :: D, ¬ c ∈ ds) :
    (Hashids.splitOnChars ds (L :: D)).getD
      (if (Hashids.splitOnChars ds (L :: D)).length = 3 ∨
          (Hashids.splitOnChars ds (L :: D)).length = 2 then 1 else 0) []
      = L :: D := by
  rw [splitOnChars_no_delim ds _ hfree]
  simp

theorem parts_shape2 (ds : List Char) (g1 L : Char) (D : List Char)
    (hg1 : g1 ∈ ds) (hfree : ∀ c ∈ L :: D, ¬ c ∈ ds) :
    (Hashids.splitOnChars ds (g1 :: (L :: D))).getD
      (if (Hashids.splitOnChars ds (g1 :: (L :: D))).length = 3 ∨
          (Hashids.splitOnChars ds (g1 :: (L :: D))).length = 2 then 1 else 0)
      [] = L :: D := by
  rw [splitOnChars_delim_cons ds g1 hg1, splitOnChars_no_delim ds _ hfree]
  simp

theorem parts_shape3 (ds : List Char) (g1 g2 L : Char) (D : List Char)
    (hg1 : g1 ∈ ds) (hg2 : g2 ∈ ds)
    (hfree : ∀ c ∈ L :: D, ¬ c ∈ ds) :
    (Hashids.splitOnChars ds (g1 :: ((L :: D) ++ [g2]))).getD
      (if (Hashids.splitOnChars ds (g1 :: ((L :: D) ++ [g2]))).length = 3 ∨
          (Hashids.splitOnChars ds (g1 :: ((L :: D) ++ [g2]))).length = 2
       then 1 else 0) [] = L :: D := by
  rw [splitOnChars_delim_cons ds g1 hg1,
    splitOnChars_append_free ds _ hfree [g2],
    splitOnChars_delim_cons ds g2 hg2]
  simp [Hashids.splitOnChars]

theorem parts_shape4 (ds : List Char) (g1 g2 L : Char) (D a : List Char)
    (hg1 : g1 ∈ ds) (hg2 : g2 ∈ ds)
    (hfree : ∀ c ∈ L :: D, ¬ c ∈ ds)
    (ha : ∀ c ∈ a, ¬ c ∈ ds) :
    (Hashids.splitOnChars ds (a ++ (g1 :: ((L :: D) ++ [g2])))).getD
      (if (Hashids.splitOnChars ds
            (a ++ (g1 :: ((L :: D) ++ [g2])))).length = 3 ∨
          (Hashids.splitOnChars ds
            (a ++ (g1 :: ((L :: D) ++ [g2])))).length = 2
       then 1 else 0) [] = L :: D := by
  rw [splitOnChars_append_free ds a ha,
    splitOnChars_delim_cons ds g1 hg1,
    splitOnChars_append_free ds _ hfree [g2],
    splitOnChars_delim_cons ds g2 hg2]
  simp [Hashids.splitOnChars]

theorem parts_shape5 (ds : List Char) (g1 g2 L : Char) (D a y : List Char)
    (hg1 : g1 ∈ ds) (hg2 : g2 ∈ ds)
    (hfree : ∀ c ∈ L :: D, ¬ c ∈ ds)
    (ha : ∀ c ∈ a, ¬ c ∈ ds) (hy : ∀ c ∈ y, ¬ c ∈ ds) :
    (Hashids.splitOnChars ds (a ++ (g1 :: ((L :: D) ++ ([g2] ++ y))))).getD
      (if (Hashids.splitOnChars ds
            (a ++ (g1 :: ((L :: D) ++ ([g2] ++ y))))).length = 3 ∨
          (Hashids.splitOnChars ds
            (a ++ (g1 :: ((L :: D) ++ ([g2] ++ y))))).length = 2
       then 1 else 0) [] = L :: D := by
  rw [splitOnChars_append_free ds a ha,
    splitOnChars_delim_cons ds g1 hg1,
    splitOnChars_append_free ds _ hfree ([g2] ++ y),
    show ([g2] ++ y) = g2 :: y from rfl,
    splitOnChars_delim_cons ds g2 hg2,
    splitOnChars_no_delim ds y hy]
  simp

/-- The symmetric trim of the padding loop: wrapping a 5-character string
with the halves of a 44-character alphabet and trimming the centre 6 keeps
the string preceded by the alphabet's last character. -/
theorem window_eq5 (A r : List Char) (hA : A.length = 44)
    (hr : r.length = 5) :
    ((A.drop 22 ++ r ++ A.take 22).drop 21).take 6 = A.drop 43 ++ r := by
  rw [List.append_assoc,
    List.drop_append_of_le_length (by rw [List.length_drop, hA]; omega),
    List.drop_drop, show (22 + 21 : Nat) = 43 from by norm_num,
    List.take_append_eq_append_take,
    List.take_of_length_le (by rw [List.length_drop, hA]; omega),
    List.length_drop, hA, show (44 - 43 : Nat) = 1 from by norm_num,
    show (6 - 1 : Nat) = 5 from by norm_num,
    List.take_append_eq_append_take,
    List.take_of_length_le (by rw [hr]),
    hr, show (5 - 5 : Nat) = 0 from by norm_num,
    List.take_zero, List.append_nil]

/-- As `window_eq5` for a 4-character string: the centre 6 also picks up
the alphabet's first character at the end. -/
theorem window_eq4 (A r : List Char) (hA : A.length = 44)
    (hr : r.length = 4) :
    ((A.drop 22 ++ r ++ A.take 22).drop 21).take 6 =
      A.drop 43 ++ (r ++ A.take 1) := by
  rw [List.append_assoc,
    List.drop_append_of_le_length (by rw [List.length_drop, hA]; omega),
    List.drop_drop, show (22 + 21 : Nat) = 43 from by norm_num,
    List.take_append_eq_append_take,
    List.take_of_length_le (by rw [List.length_drop, hA]; omega),
    List.length_drop, hA, show (44 - 43 : Nat) = 1 from by norm_num,
    show (6 - 1 : Nat) = 5 from by norm_num,
    List.take_append_eq_append_take,
    List.take_of_length_le (by rw [hr]; omega),
    hr, show (5 - 4 : Nat) = 1 from by norm_num,
    List.take_take, show (1 ⊓ 22 : Nat) = 1 from by norm_num]

/-- The heart of C3: for any hashids context with the shape produced by
`makeCtx` (a 44-character duplicate-free alphabet disjoint from the 4
guards and from the separators, minimum length 6), decoding an encoded
single number recovers it, and the slug is at least 6 characters over the
62-character alphabet. -/
theorem hashids_single (ctx : Hashids.Ctx)
    (hAlen : ctx.alphabet.length = 44)
    (hAnd : ctx.alphabet.Nodup)
    (hGlen : ctx.guards.length = 4)
    (hmin : ctx.minLength = 6)
    (hAG : List.Disjoint ctx.alphabet ctx.guards)
    (hAS : List.Disjoint ctx.alphabet ctx.seps)
    (hAsub : ∀ c ∈ ctx.alphabet, c ∈ Hashids.ALPHABET62)
    (hGsub : ∀ c ∈ ctx.guards, c ∈ Hashids.ALPHABET62)
    (n : Nat) :
    Hashids.decodeRaw ctx (Hashids.encodeRaw ctx [n]) = [n] ∧
    6 ≤ (Hashids.encodeRaw ctx [n]).length ∧
    ∀ c ∈ Hashids.encodeRaw ctx [n], c ∈ Hashids.ALPHABET62 := by
  have hApos : 0 < ctx.alphabet.length := by omega
  have hGpos : 0 < ctx.guards.length := by omega
  have hE0 := encodeRaw_single ctx n
  rw [hmin] at hE0
  simp only [] at hE0
  set nh := n % 100 with hdefnh
  set L := ctx.alphabet.getD (nh % ctx.alphabet.length) 'a' with hdefL
  set A' := Hashids.shuffle ctx.alphabet (L :: (ctx.salt ++ ctx.alphabet))
    with hdefA'
  set D := Hashids.toAlphabet A' n with hdefD
  have hLmem : L ∈ ctx.alphabet := getD_mem _ _ (Nat.mod_lt _ hApos) _
  have hA'len : A'.length = 44 := by
    rw [hdefA', shuffle_length, hAlen]
  have hA'nd : A'.Nodup := shuffle_nodup _ _ hAnd
  have hA'mem : ∀ c ∈ A', c ∈ ctx.alphabet := fun c hc =>
    (shuffle_mem _ _ c).1 hc
  have hA'le1 : ¬ A'.length ≤ 1 := by omega
  have hDmem : ∀ c ∈ D, c ∈ ctx.alphabet := fun c hc =>
    hA'mem c (toAlphabet_mem A' hA'le1 n c hc)
  have hDne : D ≠ [] := toAlphabet_ne_nil A' n
  have hDpos : 0 < D.length := List.length_pos.2 hDne
  have hround : Hashids.fromAlphabet A' D = some n :=
    fromAlphabet_toAlphabet A' hA'nd hA'le1 n
  have hbuflen : ctx.alphabet.length ≤
      (L :: (ctx.salt ++ ctx.alphabet)).length := by
    simp only [List.length_cons, List.length_append]
    omega
  have hfa : Hashids.fromAlphabet
      (Hashids.shuffle ctx.alphabet
        ((L :: (ctx.salt ++ ctx.alphabet)).take ctx.alphabet.length)) D =
      some n := by
    rw [shuffle_take_eq _ _ hbuflen, ← hdefA']
    exact hround
  have hguardsmem : ∀ x : Nat,
      ctx.guards.getD (x % ctx.guards.length) 'a' ∈ ctx.guards :=
    fun x => getD_mem _ _ (Nat.mod_lt _ hGpos) _
  have hcoreG : ∀ c ∈ L :: D, ¬ c ∈ ctx.guards := by
    intro c hc
    rcases List.mem_cons.1 hc with h | h
    · exact h ▸ hAG hLmem
    · exact hAG (hDmem c h)
  have hDsep : ∀ c ∈ D, ¬ c ∈ ctx.seps := fun c hc => hAS (hDmem c hc)
  have hcore62 : ∀ c ∈ L :: D, c ∈ Hashids.ALPHABET62 := by
    intro c hc
    rcases List.mem_cons.1 hc with h | h
    · exact h ▸ hAsub _ hLmem
    · exact hAsub c (hDmem c h)
  have hhalf : A'.length / 2 = 22 := by rw [hA'len]
  rw [hhalf] at hE0
  by_cases h5 : 5 ≤ D.length
  · -- digits fill the minimum length: no padding at all
    have hlen : ¬ (L :: D).length < 6 := by
      simp only [List.length_cons]; omega
    rw [if_neg hlen, padLoop_of_not_lt _ _ _ _ _ hlen] at hE0
    refine ⟨?_, ?_, ?_⟩
    · refine decodeRaw_parse ctx _ L D n ?_ ?_ hDsep hfa rfl
      · rw [hE0]
        simp only [List.length_cons]
        omega
      · rw [hE0]
        exact parts_shape1 ctx.guards L D hcoreG
    · rw [hE0]
      simp only [List.length_cons]
      omega
    · rw [hE0]
      exact hcore62
  · have hlen1 : (L :: D).length < 6 := by
      simp only [List.length_cons]; omega
    rw [if_pos hlen1] at hE0
    set g1 := ctx.guards.getD ((nh + L.toNat) % ctx.guards.length) 'a'
      with hdefg1
    have hg1 : g1 ∈ ctx.guards := hguardsmem _
    have hg162 : g1 ∈ Hashids.ALPHABET62 := hGsub _ hg1
    have hd1234 : D.length = 1 ∨ D.length = 2 ∨ D.length = 3 ∨
        D.length = 4 := by omega
    rcases hd1234 with hd | hd | hd | hd
    · -- one digit: guards plus one alphabet-padding pass (48-window)
      have hrl : (g1 :: L :: D).length < 6 := by
        simp only [List.length_cons]; omega
      rw [if_pos hrl] at hE0
      set g2 := ctx.guards.getD
        ((nh + ((g1 :: L :: D).getD 2 'a').toNat) % ctx.guards.length) 'a'
        with hdefg2
      have hg2 : g2 ∈ ctx.guards := hguardsmem _
      have hg262 : g2 ∈ Hashids.ALPHABET62 := hGsub _ hg2
      have hr4 : ((g1 :: L :: D) ++ [g2]).length = 4 := by
        simp only [List.length_append, List.length_cons,
          List.length_singleton, List.length_nil]
        omega
      have hrlt : ((g1 :: L :: D) ++ [g2]).length < 6 := by
        rw [hr4]; norm_num
      rw [padLoop_step 6 22 6 A' ((g1 :: L :: D) ++ [g2]) hrlt] at hE0
      simp only [] at hE0
      set A2 := Hashids.shuffle A' A' with hdefA2
      have hA2len : A2.length = 44 := by
        rw [hdefA2, shuffle_length, hA'len]
      have hA2mem : ∀ c ∈ A2, c ∈ ctx.alphabet := fun c hc =>
        hA'mem c ((shuffle_mem _ _ c).1 hc)
      have hlen2 : (A2.drop 22 ++ ((g1 :: L :: D) ++ [g2]) ++
          A2.take 22).length = 48 := by
        simp only [List.length_append, List.length_drop, List.length_take,
          List.length_cons, List.length_singleton, List.length_nil, hA2len]
        omega
      rw [hlen2] at hE0
      rw [show (48 - 6 : Nat) = 42 from by norm_num,
        if_pos (by norm_num : (0 : Nat) < 42),
        show (42 / 2 : Nat) = 21 from by norm_num] at hE0
      rw [window_eq4 A2 _ hA2len hr4] at hE0
      have hdone : ¬ (A2.drop 43 ++ (((g1 :: L :: D) ++ [g2]) ++
          A2.take 1)).length < 6 := by
        simp only [List.length_append, List.length_drop, List.length_take,
          List.length_cons, List.length_singleton, List.length_nil, hA2len]
        omega
      rw [padLoop_of_not_lt _ _ _ _ _ hdone] at hE0
      have hafree : ∀ c ∈ A2.drop 43, ¬ c ∈ ctx.guards := fun c hc =>
        hAG (hA2mem c (List.mem_of_mem_drop hc))
      have hyfree : ∀ c ∈ A2.take 1, ¬ c ∈ ctx.guards := fun c hc =>
        hAG (hA2mem c (List.mem_of_mem_take hc))
      have hshape : Hashids.encodeRaw ctx [n] =
          A2.drop 43 ++ (g1 :: ((L :: D) ++ ([g2] ++ A2.take 1))) := by
        rw [hE0]
        simp only [List.append_assoc, List.cons_append]
      refine ⟨?_, ?_, ?_⟩
      · refine decodeRaw_parse ctx _ L D n ?_ ?_ hDsep hfa rfl
        · rw [hshape]
          simp only [List.length_append, List.length_drop, List.length_cons,
            hA2len]
          omega
        · rw [hshape]
          exact parts_shape5 ctx.guards g1 g2 L D _ _ hg1 hg2 hcoreG
            hafree hyfree
      · rw [hshape]
        simp only [List.length_append, List.length_drop, List.length_take,
          List.length_cons, hA2len]
        omega
      · rw [hshape]
        intro c hc
        rcases List.mem_append.1 hc with h | h
        · exact hAsub c (hA2mem c (List.mem_of_mem_drop h))
        · rcases List.mem_cons.1 h with h | h
          · exact h ▸ hg162
          · rcases List.mem_append.1 h with h | h
            · exact hcore62 c h
            · rcases List.mem_append.1 h with h | h
              · simp only [List.mem_singleton] at h
                exact h ▸ hg262
              · exact hAsub c (hA2mem c (List.mem_of_mem_take h))
    · -- two digits: guards plus one alphabet-padding pass (49-window)
      have hrl : (g1 :: L :: D).length < 6 := by
        simp only [List.length_cons]; omega
      rw [if_pos hrl] at hE0
      set g2 := ctx.guards.getD
        ((nh + ((g1 :: L :: D).getD 2 'a').toNat) % ctx.guards.length) 'a'
        with hdefg2
      have hg2 : g2 ∈ ctx.guards := hguardsmem _
      have hg262 : g2 ∈ Hashids.ALPHABET62 := hGsub _ hg2
      have hr5 : ((g1 :: L :: D) ++ [g2]).length = 5 := by
        simp only [List.length_append, List.length_cons,
          List.length_singleton, List.length_nil]
        omega
      have hrlt : ((g1 :: L :: D) ++ [g2]).length < 6 := by
        rw [hr5]; norm_num
      rw [padLoop_step 6 22 6 A' ((g1 :: L :: D) ++ [g2]) hrlt] at hE0
      simp only [] at hE0
      set A2 := Hashids.shuffle A' A' with hdefA2
      have hA2len : A2.length = 44 := by
        rw [hdefA2, shuffle_length, hA'len]
      have hA2mem : ∀ c ∈ A2, c ∈ ctx.alphabet := fun c hc =>
        hA'mem c ((shuffle_mem _ _ c).1 hc)
      have hlen2 : (A2.drop 22 ++ ((g1 :: L :: D) ++ [g2]) ++
          A2.take 22).length = 49 := by
        simp only [List.length_append, List.length_drop, List.length_take,
          List.length_cons, List.length_singleton, List.length_nil, hA2len]
        omega
      rw [hlen2] at hE0
      rw [show (49 - 6 : Nat) = 43 from by norm_num,
        if_pos (by norm_num : (0 : Nat) < 43),
        show (43 / 2 : Nat) = 21 from by norm_num] at hE0
      rw [window_eq5 A2 _ hA2len hr5] at hE0
      have hdone : ¬ (A2.drop 43 ++ ((g1 :: L :: D) ++ [g2])).length < 6 := by
        simp only [List.length_append, List.length_drop, List.length_cons,
          List.length_singleton, hA2len]
        omega
      rw [padLoop_of_not_lt _ _ _ _ _ hdone] at hE0
      have hafree : ∀ c ∈ A2.drop 43, ¬ c ∈ ctx.guards := fun c hc =>
        hAG (hA2mem c (List.mem_of_mem_drop hc))
      have hshape : Hashids.encodeRaw ctx [n] =
          A2.drop 43 ++ (g1 :: ((L :: D) ++ [g2])) := by
        rw [hE0]
        simp only [List.append_assoc, List.cons_append]
      refine ⟨?_, ?_, ?_⟩
      · refine decodeRaw_parse ctx _ L D n ?_ ?_ hDsep hfa rfl
        · rw [hshape]
          simp only [List.length_append, List.length_drop, List.length_cons,
            hA2len]
          omega
        · rw [hshape]
          exact parts_shape4 ctx.guards g1 g2 L D _ hg1 hg2 hcoreG hafree
      · rw [hshape]
        simp only [List.length_append, List.length_drop, List.length_cons,
          List.length_singleton, hA2len]
        omega
      · rw [hshape]
        intro c hc
        rcases List.mem_append.1 hc with h | h
        · exact hAsub c (hA2mem c (List.mem_of_mem_drop h))
        · rcases List.mem_cons.1 h with h | h
          · exact h ▸ hg162
          · rcases List.mem_append.1 h with h | h
            · exact hcore62 c h
            · simp only [List.mem_singleton] at h
              exact h ▸ hg262
    · -- three digits: prefix and suffix guard, length exactly 6
      have hrl : (g1 :: L :: D).length < 6 := by
        simp only [List.length_cons]; omega
      rw [if_pos hrl] at hE0
      set g2 := ctx.guards.getD
        ((nh + ((g1 :: L :: D).getD 2 'a').toNat) % ctx.guards.length) 'a'
        with hdefg2
      have hg2 : g2 ∈ ctx.guards := hguardsmem _
      have hg262 : g2 ∈ Hashids.ALPHABET62 := hGsub _ hg2
      have hdone : ¬ ((g1 :: L :: D) ++ [g2]).length < 6 := by
        simp only [List.length_append, List.length_cons,
          List.length_singleton, List.length_nil]
        omega
      rw [padLoop_of_not_lt _ _ _ _ _ hdone] at hE0
      have hshape : Hashids.encodeRaw ctx [n] =
          g1 :: ((L :: D) ++ [g2]) := by
        rw [hE0]
        simp only [List.append_assoc, List.cons_append]
      refine ⟨?_, ?_, ?_⟩
      · refine decodeRaw_parse ctx _ L D n ?_ ?_ hDsep hfa rfl
        · rw [hshape]
          simp
        · rw [hshape]
          exact parts_shape3 ctx.guards g1 g2 L D hg1 hg2 hcoreG
      · rw [hshape]
        simp only [List.length_cons, List.length_append,
          List.length_singleton]
        omega
      · rw [hshape]
        intro c hc
        rcases List.mem_cons.1 hc with h | h
        · exact h ▸ hg162
        · rcases List.mem_append.1 h with h | h
          · exact hcore62 c h
          · simp only [List.mem_singleton] at h
            exact h ▸ hg262
    · -- four digits: a single prefix guard reaches length 6
      have hrl : ¬ (g1 :: L :: D).length < 6 := by
        simp only [List.length_cons]; omega
      rw [if_neg hrl, padLoop_of_not_lt _ _ _ _ _ hrl] at hE0
      refine ⟨?_, ?_, ?_⟩
      · refine decodeRaw_parse ctx _ L D n ?_ ?_ hDsep hfa rfl
        · rw [hE0]
          simp
        · rw [hE0]
          exact parts_shape2 ctx.guards g1 L D hg1 hcoreG
      · rw [hE0]
        simp only [List.length_cons]
        omega
      · rw [hE0]
        intro c hc
        rcases List.mem_cons.1 hc with h | h
        · exact h ▸ hg162
        · exact hcore62 c h

/-- **C3.** For every salt and non-negative integer `n`,
`decodeSlug (generateSlug n)` recovers `n`; for distinct integers the
produced slugs differ (injectivity, hence no collision); and every slug is
an alphanumeric (base-62) string of at least the fixed minimum length 6. -/
theorem slug_roundtrip (salt : List Char) (n n2 : Nat) (hne : n ≠ n2) :
    decodeSlug salt (generateSlug salt n) = n ∧
    generateSlug salt n ≠ generateSlug salt n2 ∧
    6 ≤ (generateSlug salt n).length ∧
    ∀ c ∈ (generateSlug salt n).data, c ∈ Hashids.ALPHABET62 := by
  obtain ⟨h1, h2, h3, h4, h5, h6, h7, h8⟩ := makeCtx_facts salt
  have hs := fun m =>
    hashids_single (Hashids.makeCtx salt) h1 h2 h3 h4 h5 h6 h7 h8 m
  have hdec : ∀ m, decodeSlug salt (generateSlug salt m) = m := by
    intro m
    show (match Hashids.decodeRaw (Hashids.makeCtx salt)
        (Hashids.encodeRaw (Hashids.makeCtx salt) [m]) with
      | [] => 0
      | k :: _ => k) = m
    rw [(hs m).1]
  refine ⟨hdec n, ?_, ?_, ?_⟩
  · intro heq
    have : n = n2 := by
      rw [← hdec n, ← hdec n2, heq]
    exact hne this
  · show 6 ≤ (Hashids.encodeRaw (Hashids.makeCtx salt) [n]).length
    exact (hs n).2.1
  · exact (hs n).2.2

/-- Witness for `slug_roundtrip` at salt `"s"` and the pair `3 ≠ 5`. -/
theorem slug_roundtrip_witness :
    (3 : Nat) ≠ 5 ∧
    (decodeSlug ['s'] (generateSlug ['s'] 3) = 3 ∧
     generateSlug ['s'] 3 ≠ generateSlug ['s'] 5 ∧
     6 ≤ (generateSlug ['s'] 3).length ∧
     ∀ c ∈ (generateSlug ['s'] 3).data, c ∈ Hashids.ALPHABET62) :=
  ⟨by decide, slug_roundtrip ['s'] 3 5 (by decide)⟩
